import Mathlib

/-!
Verification development for the post-register-allocation Perm lowering pass
(src/ir/be/belower.c).  The C functions are embedded shallowly: schedules are
lists of node ids, registers are class-local indices, node attributes are
carried in explicit records, and the side effects of the pass (schedule
splicing, register assignment, user rewiring) are threaded through explicit
state records.
-/

namespace Belower

/-! ## Scratch-register finder (find_free_register and helpers) -/

/-- One register-carrying value, as queried by set_reg_in_use: its mode
(data or not), its register's virtual flag, whether the register belongs to
the register class under consideration, and the register's class-local
index. -/
structure NodeVal where
  isData : Bool
  virt   : Bool
  clsOk  : Bool
  regIdx : Nat
deriving DecidableEq, Repr

/-- A schedule entry for the scratch-register walk: node id, Phi flag, the
values it defines (the node itself, or its Projs when it has mode_T, as
update_reg_defs iterates), and the values it uses (its inputs, as
update_reg_uses iterates). -/
structure SNode where
  nid   : Nat
  isPhi : Bool
  defs  : List NodeVal
  uses  : List NodeVal
deriving DecidableEq, Repr

/-- Embedding of set_reg_in_use: skip non-data modes, virtual registers and
registers of a different class, otherwise write in_use at the register's
class-local index. -/
def set_reg_in_use (v : NodeVal) (inUse : Bool) (regs : List Bool) : List Bool :=
  if v.isData && !v.virt && v.clsOk then regs.set v.regIdx inUse else regs

/-- Embedding of update_reg_defs: set the bit of every value the node
defines (all Projs for a mode_T node, the node itself otherwise). -/
def update_reg_defs (n : SNode) (inUse : Bool) (regs : List Bool) : List Bool :=
  n.defs.foldl (fun r v => set_reg_in_use v inUse r) regs

/-- Embedding of update_reg_uses: mark every input's register as in use. -/
def update_reg_uses (n : SNode) (regs : List Bool) : List Bool :=
  n.uses.foldl (fun r v => set_reg_in_use v true r) regs

/-- The reverse-schedule loop of find_free_register, taking the schedule
already reversed (sched_foreach_reverse).  Stops at a Phi; at the Perm node
itself it calls update_reg_defs with in_use = true, at every other node with
in_use = false, then marks the uses, and stops after handling the Perm. -/
def scratch_walk (permId : Nat) : List SNode → List Bool → List Bool
  | [], regs => regs
  | n :: rest, regs =>
    if n.isPhi then regs
    else
      let regs1 := update_reg_defs n (n.nid == permId) regs
      let regs2 := update_reg_uses n regs1
      if n.nid == permId then regs2 else scratch_walk permId rest regs2

/-- The registers_in_use array of find_free_register just after the walk:
zero-initialised (ALLOCANZ), seeded with the block-end live values, then
updated by the reverse schedule walk. -/
def compute_regs_in_use (sched : List SNode) (liveEnd : List NodeVal)
    (permId nRegs : Nat) : List Bool :=
  let regs0 := liveEnd.foldl (fun r v => set_reg_in_use v true r)
    (List.replicate nRegs false)
  scratch_walk permId sched.reverse regs0

/-- The final selection loop of find_free_register: scan indices i, i+1, ...
(k indices remain) and return the first index that is not in use and whose
register is allocatable. -/
def pickFrom (inUse : List Bool) (okay : Nat → Bool) : Nat → Nat → Option Nat
  | _, 0 => none
  | i, k + 1 =>
    if !(inUse.getD i false) && okay i then some i
    else pickFrom inUse okay (i + 1) k

/-- Embedding of find_free_register: compute the in-use array for the Perm
permId, then report the first class index that is free and allocatable
(allocatable is consulted through the register's global index). -/
def find_free_register (sched : List SNode) (liveEnd : List NodeVal)
    (permId nRegs : Nat) (globalIdx : Nat → Nat) (allocatable : Nat → Bool) :
    Option Nat :=
  pickFrom (compute_regs_in_use sched liveEnd permId nRegs)
    (fun i => allocatable (globalIdx i)) 0 nRegs

/-! ## Register pairs and the permutation decomposer -/

/-- Embedding of reg_pair_t.  Registers are class-local indices (all pair
comparisons in the C code go through reg->index); nodes are ids. -/
structure reg_pair where
  in_reg   : Nat
  in_node  : Nat
  out_reg  : Nat
  out_node : Nat
  checked  : Bool
deriving DecidableEq, Repr

/-- Embedding of perm_type_t. -/
inductive perm_type where
  | cycle
  | chain
deriving DecidableEq, Repr

/-- Embedding of perm_move_t; n_elems is elems.length. -/
structure perm_move where
  elems : List Nat
  type  : perm_type
deriving DecidableEq, Repr

/-- Embedding of get_n_unchecked_pairs. -/
def get_n_unchecked_pairs (pairs : List reg_pair) : Nat :=
  (pairs.filter (fun p => !p.checked)).length

/-- Embedding of get_node_for_in_register: the in_node of the first pair
whose in register has the given index (NULL becomes none). -/
def get_node_for_in_register (pairs : List reg_pair) (reg : Nat) : Option Nat :=
  (pairs.find? (fun p => p.in_reg == reg)).map (fun p => p.in_node)

/-- Embedding of get_node_for_out_register. -/
def get_node_for_out_register (pairs : List reg_pair) (reg : Nat) : Option Nat :=
  (pairs.find? (fun p => p.out_reg == reg)).map (fun p => p.out_node)

/-- Embedding of get_pairidx_for_in_regidx (-1 becomes none). -/
def get_pairidx_for_in_regidx (pairs : List reg_pair) (regIdx : Nat) : Option Nat :=
  pairs.findIdx? (fun p => p.in_reg == regIdx)

/-- Embedding of get_pairidx_for_out_regidx. -/
def get_pairidx_for_out_regidx (pairs : List reg_pair) (regIdx : Nat) : Option Nat :=
  pairs.findIdx? (fun p => p.out_reg == regIdx)

/-- Backward loop of get_perm_move_info: follow out-register predecessors
from head until head equals the starting pair's out register (a cycle
closes) or no pair produces head (a chain start).  Returns the tag decided
so far and the index of the pair the walk stopped at.  The C loop can run
forever on malformed pair lists, hence the fuel; none models
non-termination. -/
def gpmi_back (pairs : List reg_pair) :
    Nat → Nat → Nat → Nat → Option (perm_type × Nat)
  | 0, _, _, _ => none
  | fuel + 1, head, cur, start =>
    if head == cur then some (perm_type.cycle, start)
    else
      match get_pairidx_for_out_regidx pairs head with
      | none => some (perm_type.chain, start)
      | some i =>
        match pairs.get? i with
        | none => none
        | some p => gpmi_back pairs fuel p.in_reg cur i

/-- Forward loop of get_perm_move_info: follow in-register successors from
cur, appending each visited out register, until cur returns to head (the
tag becomes cycle) or no pair consumes cur (end of a chain). -/
def gpmi_fwd (pairs : List reg_pair) :
    Nat → Nat → Nat → perm_type → List Nat → Option (List Nat × perm_type)
  | 0, _, _, _, _ => none
  | fuel + 1, cur, head, ty, acc =>
    if cur == head then some (acc, ty)
    else
      match get_pairidx_for_in_regidx pairs cur with
      | none => some (acc, ty)
      | some i =>
        match pairs.get? i with
        | none => none
        | some p =>
          if p.out_reg == head then some (acc, perm_type.cycle)
          else gpmi_fwd pairs fuel p.out_reg head ty (acc ++ [p.out_reg])

/-- Final marking phase of get_perm_move_info: every pair sharing an in or
out register with the move's element list is marked checked. -/
def mark_checked (pairs : List reg_pair) (elems : List Nat) : List reg_pair :=
  elems.foldl
    (fun ps r =>
      let ps1 :=
        match get_pairidx_for_in_regidx ps r with
        | some i => ps.modify (fun p => { p with checked := true }) i
        | none => ps
      match get_pairidx_for_out_regidx ps1 r with
      | some i => ps1.modify (fun p => { p with checked := true }) i
      | none => ps1)
    pairs

/-- Embedding of get_perm_move_info: find the true start of the movement
containing the starting pair, collect the ordered element list, and mark
the covered pairs checked.  Returns the move together with the updated pair
array; none models a run of the C code that never terminates (or an
out-of-range start, which the C code never performs). -/
def get_perm_move_info (pairs : List reg_pair) (start fuel : Nat) :
    Option (perm_move × List reg_pair) :=
  match pairs.get? start with
  | none => none
  | some p0 =>
    match gpmi_back pairs fuel p0.in_reg p0.out_reg start with
    | none => none
    | some (ty, start1) =>
      match pairs.get? start1 with
      | none => none
      | some ps =>
        match gpmi_fwd pairs fuel ps.out_reg ps.in_reg ty
          [ps.in_reg, ps.out_reg] with
        | none => none
        | some (elems, ty1) =>
          let move : perm_move := { elems := elems, type := ty1 }
          some (move, mark_checked pairs move.elems)

/-! ## Schedule primitives shared by the lowering and push-through passes.
Schedules are lists of node ids in forward order; Proj nodes are not
scheduled (so skip_Proj of a scheduled node is the node itself). -/

/-- Embedding of sched_prev: the node directly before x (before its first
occurrence); none when x heads the schedule (sched_is_begin) or is absent. -/
def sched_prev_of : List Nat → Nat → Option Nat
  | a :: b :: rest, x => if b == x then some a else sched_prev_of (b :: rest) x
  | _, _ => none

/-- Embedding of sched_add_after: insert x directly after the first
occurrence of pos (after the end if pos is absent, which the C code never
does). -/
def sched_add_after : List Nat → Nat → Nat → List Nat
  | [], _, x => [x]
  | a :: rest, pos, x =>
    if a == pos then a :: x :: rest else a :: sched_add_after rest pos x

/-- Embedding of sched_comes_after: a is scheduled strictly before b. -/
def comes_after (sched : List Nat) (a b : Nat) : Bool :=
  sched.indexOf a < sched.indexOf b

/-! ## Perm lowering (lower_perm_node and the split functions) -/

/-- A node emitted during lowering: a Copy (with its operand and the
register assigned to it) or an exchange node, i.e. a Perm built by
be_new_Perm with its input list.  Operands are Options because the C
helpers get_node_for_in_register / get_node_for_out_register can return
NULL. -/
inductive ENode where
  | copy (id : Nat) (src : Option Nat) (dst : Nat)
  | xchg (id : Nat) (ins : List (Option Nat))
deriving DecidableEq, Repr

/-- Mutable state threaded through lower_perm_node: the schedule, the pair
array, the nodes created so far (in creation order), the exchange(old,new)
rewirings performed, the set_Proj_pred/set_Proj_proj rewirings, the
register assignments written onto Projs, a fresh-id counter, and the
keep_perm / removed flags of lower_perm_node. -/
structure LowSt where
  sched       : List Nat
  pairs       : List reg_pair
  emitted     : List ENode
  exchanged   : List (Option Nat × Nat)
  rewired     : List (Option Nat × Nat × Nat)
  regAssign   : List (Option Nat × Nat)
  nextId      : Nat
  keep_perm   : Bool
  permRemoved : Bool
deriving DecidableEq, Repr

/-- The common body of the i = n_elems-2 .. 0 loops of
split_chain_into_copies and split_cycle_into_copies (the two C loops are
textually identical): emit Copy(holder(elems[i])) assigned to elems[i+1],
exchange the Proj for elems[i+1] with it, insert it after the schedule
point and make it the new schedule point.  k+1 is the number of remaining
iterations, so the current index is k; returns the final schedule point. -/
def copy_loop (elems : List Nat) : Nat → Nat → LowSt → LowSt × Nat
  | 0, sp, st => (st, sp)
  | k + 1, sp, st =>
    let arg1 := get_node_for_in_register st.pairs (elems.getD k 0)
    let res2 := get_node_for_out_register st.pairs (elems.getD (k + 1) 0)
    let cid := st.nextId
    let st1 : LowSt := { st with
      emitted := st.emitted ++ [ENode.copy cid arg1 (elems.getD (k + 1) 0)],
      exchanged := st.exchanged ++ [(res2, cid)],
      sched := sched_add_after st.sched sp cid,
      nextId := cid + 1 }
    copy_loop elems k cid st1

/-- Embedding of split_chain_into_copies: starting schedule point is
sched_prev of the Perm (none models the assertion failure when the Perm
has no predecessor; skip_Proj is the identity on scheduled nodes). -/
def split_chain_into_copies (irn : Nat) (move : perm_move) (st : LowSt) :
    Option LowSt :=
  match sched_prev_of st.sched irn with
  | none => none
  | some sp => some (copy_loop move.elems (move.elems.length - 1) sp st).1

/-- Embedding of split_cycle_into_copies: save the content of the last
cycle register into the free register, run the same copy loop as the chain
case, then restore the saved value into the first cycle register,
exchanging that register's Proj. -/
def split_cycle_into_copies (irn : Nat) (move : perm_move) (freeReg : Nat)
    (st : LowSt) : Option LowSt :=
  match sched_prev_of st.sched irn with
  | none => none
  | some sp =>
    let num := move.elems.length
    let arg := get_node_for_in_register st.pairs (move.elems.getD (num - 1) 0)
    let saveId := st.nextId
    let st1 : LowSt := { st with
      emitted := st.emitted ++ [ENode.copy saveId arg freeReg],
      sched := sched_add_after st.sched sp saveId,
      nextId := saveId + 1 }
    let res := copy_loop move.elems (num - 1) saveId st1
    let st2 := res.1
    let restoreId := st2.nextId
    let proj := get_node_for_out_register st2.pairs (move.elems.getD 0 0)
    some { st2 with
      emitted := st2.emitted ++
        [ENode.copy restoreId (some saveId) (move.elems.getD 0 0)],
      exchanged := st2.exchanged ++ [(proj, restoreId)],
      sched := sched_add_after st2.sched res.2 restoreId,
      nextId := restoreId + 1 }

/-- The i > 0 part of one split_cycle_into_swaps iteration: when the cycle
is not done yet, create an intermediate Proj (a fresh id) on the exchange
node and record it in the pair array as the new in node for register ri;
returns the updated state together with res1 (the old out Proj when i = 0,
the intermediate Proj otherwise). -/
def swap_intermediate (st1 : LowSt) (ri : Nat) (res1 : Option Nat) (k : Nat) :
    LowSt × Option Nat :=
  if k > 0 then
    let pid := st1.nextId
    match get_pairidx_for_in_regidx st1.pairs ri with
    | some pidx =>
      ({ st1 with
         pairs := st1.pairs.modify (fun p => { p with in_node := pid }) pidx
         nextId := pid + 1 }, some pid)
    | none => ({ st1 with nextId := pid + 1 }, some pid)
  else (st1, res1)

/-- The i = n_elems-2 .. 0 loop of split_cycle_into_swaps.  Each iteration
builds a binary Perm (be_new_Perm with two inputs) over the current
holders of registers elems[k] and elems[k+1], creates an intermediate Proj
when the cycle is not done yet (swap_intermediate), rewires the two result
Projs onto the exchange node, assigns their registers, and inserts the
exchange node after the schedule point.  The C code sets sched_point to
the Proj res1; its skip_Proj is the new exchange node, which is what the
next insertion uses. -/
def swap_loop (elems : List Nat) : Nat → Nat → LowSt → LowSt
  | 0, _, st => st
  | k + 1, sp, st =>
    let ri := elems.getD k 0
    let ri1 := elems.getD (k + 1) 0
    let arg1 := get_node_for_in_register st.pairs ri
    let arg2 := get_node_for_in_register st.pairs ri1
    let res1 := get_node_for_out_register st.pairs ri
    let res2 := get_node_for_out_register st.pairs ri1
    let xid := st.nextId
    let st1 : LowSt := { st with
      emitted := st.emitted ++ [ENode.xchg xid [arg1, arg2]],
      nextId := xid + 1 }
    let stepRes := swap_intermediate st1 ri res1 k
    let st2 := stepRes.1
    let res1p := stepRes.2
    let st3 : LowSt := { st2 with
      rewired := st2.rewired ++ [(res2, xid, 0), (res1p, xid, 1)],
      regAssign := st2.regAssign ++ [(res2, ri1), (res1p, ri)],
      sched := sched_add_after st2.sched sp xid }
    swap_loop elems k xid st3

/-- Embedding of split_cycle_into_swaps. -/
def split_cycle_into_swaps (irn : Nat) (move : perm_move) (st : LowSt) :
    Option LowSt :=
  match sched_prev_of st.sched irn with
  | none => none
  | some sp => some (swap_loop move.elems (move.elems.length - 1) sp st)

/-- Embedding of reduce_perm_size: cycles are realised as swaps when no
free register was recorded or the cycle has at most two elements, and as
copies through the free register otherwise; chains always become copies. -/
def reduce_perm_size (irn : Nat) (move : perm_move) (freeReg : Option Nat)
    (st : LowSt) : Option LowSt :=
  match move.type with
  | perm_type.cycle =>
    match freeReg with
    | none => split_cycle_into_swaps irn move st
    | some r =>
      if move.elems.length ≤ 2 then split_cycle_into_swaps irn move st
      else split_cycle_into_copies irn move r st
  | perm_type.chain => split_chain_into_copies irn move st

/-- One input of a Perm: node id and assigned register index. -/
structure PermIn where
  id  : Nat
  reg : Nat
deriving DecidableEq, Repr

/-- One out edge of a Perm: the Proj's id, its proj number and its
assigned register index. -/
structure ProjOut where
  id  : Nat
  pn  : Nat
  reg : Nat
deriving DecidableEq, Repr

/-- Embedding of build_register_pair_list: walk the out edges in order;
an identity slot (in register equals out register) exchanges the Proj for
the input node and produces no pair, any other slot produces a pair.
Returns the pair array together with the identity exchanges performed
(Proj id, input id); none models the crash on an out-of-range proj
number. -/
def build_register_pair_list (ins : List PermIn) :
    List ProjOut → Option (List reg_pair × List (Nat × Nat))
  | [] => some ([], [])
  | o :: rest =>
    match ins.get? o.pn with
    | none => none
    | some i =>
      match build_register_pair_list ins rest with
      | none => none
      | some (ps, ex) =>
        if i.reg == o.reg then some (ps, (o.id, i.id) :: ex)
        else some ({ in_reg := i.reg, in_node := i.id, out_reg := o.reg,
                     out_node := o.id, checked := false } :: ps, ex)

/-- The while loop of lower_perm_node: as long as unchecked pairs remain,
take the first unchecked pair, decompose one move, and either record that
the Perm must be kept (a two element cycle on a Perm of arity 2) or emit
the smaller nodes for the move.  The loop fuel models the C loop's
potential divergence on malformed pair arrays; each terminating C run
marks at least one new pair per iteration, so pairs.length + 1 fuel is
enough for every terminating run. -/
def lower_loop (irn arity : Nat) (freeReg : Option Nat) (gfuel : Nat) :
    Nat → LowSt → Option LowSt
  | 0, st => if get_n_unchecked_pairs st.pairs = 0 then some st else none
  | fuel + 1, st =>
    if get_n_unchecked_pairs st.pairs = 0 then some st
    else
      match st.pairs.findIdx? (fun p => !p.checked) with
      | none => some st
      | some i =>
        match get_perm_move_info st.pairs i gfuel with
        | none => none
        | some mp =>
          if mp.1.type == perm_type.cycle && arity == 2 then
            lower_loop irn arity freeReg gfuel fuel
              { st with pairs := mp.2, keep_perm := true }
          else
            match reduce_perm_size irn mp.1 freeReg { st with pairs := mp.2 } with
            | none => none
            | some st1 => lower_loop irn arity freeReg gfuel fuel st1

/-- Embedding of lower_perm_node.  The asserts of the C function (a
schedule predecessor exists; the arity equals the out-edge count) become
none.  After the loop, the Perm is removed from the schedule and killed
unless keep_perm was set. -/
def lower_perm_node (permId : Nat) (ins : List PermIn) (outs : List ProjOut)
    (freeReg : Option Nat) (gfuel : Nat) (sched : List Nat) (nextId : Nat) :
    Option LowSt :=
  let arity := ins.length
  match sched_prev_of sched permId with
  | none => none
  | some _ =>
    if arity ≠ outs.length then none
    else
      match build_register_pair_list ins outs with
      | none => none
      | some pe =>
        let st0 : LowSt :=
          { sched := sched
            pairs := pe.1
            emitted := []
            exchanged := pe.2.map (fun e => (some e.1, e.2))
            rewired := []
            regAssign := []
            nextId := nextId
            keep_perm := false
            permRemoved := false }
        match lower_loop permId arity freeReg gfuel (pe.1.length + 1) st0 with
        | none => none
        | some st1 =>
          if st1.keep_perm then some st1
          else some { st1 with sched := st1.sched.erase permId,
                               permRemoved := true }

/-- The arities of the Perm nodes present after lower_perm_node has
processed one Perm: the original Perm when it was kept, plus every
exchange Perm created while lowering. -/
def perm_arities_of (st : LowSt) (arity : Nat) : List Nat :=
  (if st.permRemoved then [] else [arity]) ++
  st.emitted.filterMap (fun e =>
    match e with
    | ENode.xchg _ l => some l.length
    | _ => none)

/-- All data lower_nodes_after_ra_walker needs about one Perm: its id, its
inputs and out edges, the scratch register recorded for it by the
free-register walker, whether push_through_perm reported that it stayed
(a Perm for which push_through_perm returned 0 was already removed and
killed there), its block schedule and a fresh id bound. -/
structure PermDesc where
  permId  : Nat
  ins     : List PermIn
  outs    : List ProjOut
  freeReg : Option Nat
  stayed  : Bool
  sched   : List Nat
  nextId  : Nat
deriving Repr

/-- Embedding of the lower_nodes_after_ra walk: every Perm that stayed
after push_through_perm is lowered; collects the arities of all Perm nodes
that exist afterwards. -/
def lower_nodes_after_ra (gfuel : Nat) : List PermDesc → Option (List Nat)
  | [] => some []
  | d :: rest =>
    match lower_nodes_after_ra gfuel rest with
    | none => none
    | some acc =>
      if d.stayed then
        match lower_perm_node d.permId d.ins d.outs d.freeReg gfuel d.sched
            d.nextId with
        | none => none
        | some st => some (perm_arities_of st d.ins.length ++ acc)
      else some acc

/-! ## push_through_perm -/

/-- Per-node attributes consulted by push_through_perm for a node id: its
input node ids, the modify_flags opcode attribute, whether its register
requirement kind is plain normal, whether the node's value is considered
in register allocation for the Perm's class C
(arch_irn_consider_in_reg_alloc), and whether it interferes with the
chosen Proj one_proj of the Perm (be_values_interfere).  defsValues and
interferesAnyLiveOut are not read by the code; they model the
specification's vocabulary (values a node defines, interference with any
live output of the Perm) for comparison. -/
structure PNodeAttr where
  inputs               : List Nat
  modifyFlags          : Bool
  reqNormal            : Bool
  considerC            : Bool
  interferes           : Bool
  defsValues           : List Nat
  interferesAnyLiveOut : Bool

/-- An out edge of the Perm inside push_through_perm. -/
structure Proj2 where
  id  : Nat
  pn  : Nat
  reg : Nat
deriving DecidableEq, Repr

/-- Mutable state of push_through_perm: the block schedule (containing the
Perm), the Perm's input list, its out edges, the register assignments
written, the exchange(proj, node) calls performed, the nodes hoisted past
the Perm, the input slots marked in the moved bitset, and whether the Perm
was killed. -/
structure PtpState where
  sched      : List Nat
  permInputs : List Nat
  projs      : List Proj2
  regAssign  : List (Nat × Nat)
  exchanged  : List (Nat × Nat)
  hoisted    : List Nat
  movedSlots : List Nat
  killed     : Bool
deriving DecidableEq, Repr

/-- The frontier search condition of push_through_perm: the node has an
operand that is considered in register allocation for class C and does not
interfere with one_proj (an operand of the Perm's class dying here). -/
def op_dies (env : Nat → PNodeAttr) (n : Nat) : Bool :=
  (env n).inputs.any (fun op => (env op).considerC && !(env op).interferes)

/-- The frontier loop of push_through_perm: walk the schedule backwards
from the Perm's predecessor (before is the schedule segment in front of the
Perm, in forward order) and stop at the first node letting a class-C
operand die; none means the walk ran to the schedule begin and the
frontier stayed the block. -/
def compute_frontier (env : Nat → PNodeAttr) (before : List Nat) : Option Nat :=
  before.reverse.find? (op_dies env)

/-- The frontier as claim C2 words it: the first schedule predecessor that
defines, in class C, a value interfering with a live output of the Perm.
Written from the claim, for comparison with compute_frontier. -/
def frontier_claim (env : Nat → PNodeAttr) (before : List Nat) : Option Nat :=
  before.reverse.find? (fun n =>
    (env n).defsValues.any (fun d =>
      (env d).considerC && (env d).interferesAnyLiveOut))

/-- Embedding of sched_comes_after against an Option frontier: the block
(none) begins the schedule, so everything comes after it. -/
def frontier_allows (sched : List Nat) (frontier : Option Nat) (node : Nat) :
    Bool :=
  match frontier with
  | none => true
  | some f => comes_after sched f node

/-- The foreach_out_edge search of the main loop: the first Proj of the
Perm whose selected input is the node. -/
def find_input_proj (st : PtpState) (node : Nat) : Option Proj2 :=
  st.projs.find? (fun pr => st.permInputs.get? pr.pn == some node)

/-- One hoist of the main loop: remove the node from its schedule slot and
re-insert it directly after the Perm, give it the Proj's register, reroute
all users of the Proj to it (which also deletes the Proj as an out edge of
the Perm), and record the moved input slot. -/
def ptp_move (permId : Nat) (st : PtpState) (node : Nat) (pr : Proj2) :
    PtpState :=
  { st with
    sched := sched_add_after (st.sched.erase node) permId node
    regAssign := st.regAssign ++ [(node, pr.reg)]
    exchanged := st.exchanged ++ [(pr.id, node)]
    projs := st.projs.filter (fun q => q.id != pr.id)
    hoisted := st.hoisted ++ [node]
    movedSlots := st.movedSlots ++ [pr.pn] }

/-- The conjunction of the conditions the main loop checks before hoisting
a candidate node (each failing condition is a break in the C code). -/
def hoist_cond (env : Nat → PNodeAttr) (frontier : Option Nat)
    (st : PtpState) (node : Nat) : Bool :=
  (find_input_proj st node).isSome &&
  frontier_allows st.sched frontier node &&
  !(env node).modifyFlags &&
  (env node).reqNormal &&
  !((env node).inputs.any (fun op => (env op).considerC))

/-- The main loop of push_through_perm.  The cursor is the current
candidate (none at schedule begin); after a hoist the C code continues
with sched_prev of the moved node, which is the Perm itself in the updated
schedule.  The fuel only bounds the bookkeeping; sched.length + 1 is
always enough because every iteration either stops or removes one node
from the segment before the Perm. -/
def ptp_loop (env : Nat → PNodeAttr) (permId : Nat) (frontier : Option Nat) :
    Nat → Option Nat → PtpState → PtpState
  | _, none, st => st
  | 0, some _, st => st
  | fuel + 1, some node, st =>
    match find_input_proj st node with
    | none => st
    | some pr =>
      if !frontier_allows st.sched frontier node then st
      else if (env node).modifyFlags then st
      else if !(env node).reqNormal then st
      else if (env node).inputs.any (fun op => (env op).considerC) then st
      else
        let st1 := ptp_move permId st node pr
        ptp_loop env permId frontier fuel (sched_prev_of st1.sched node) st1

/-- Embedding of push_through_perm.  Returns the C result (1 = the Perm
stayed, 0 = it was removed and killed) together with the final state.
After the loop: nothing moved returns 1 unchanged; everything moved
removes and kills the Perm and returns 0; otherwise the surviving input
slots are compacted, the remaining Projs renumbered accordingly
(be_Perm_reduce), and 1 is returned. -/
def push_through_perm (env : Nat → PNodeAttr) (permId : Nat) (st : PtpState) :
    Bool × PtpState :=
  let arity := st.permInputs.length
  let frontier := compute_frontier env (st.sched.takeWhile (fun x => x != permId))
  let st1 := ptp_loop env permId frontier (st.sched.length + 1)
    (sched_prev_of st.sched permId) st
  if st1.movedSlots.length = 0 then (true, st1)
  else if arity - st1.movedSlots.length = 0 then
    (false, { st1 with sched := st1.sched.erase permId, killed := true })
  else
    let unmoved := (List.range arity).filter (fun i => !st1.movedSlots.contains i)
    (true, { st1 with
      projs := st1.projs.map (fun pr => { pr with pn := unmoved.indexOf pr.pn })
      permInputs := unmoved.filterMap (fun i => st1.permInputs.get? i) })

/-! ## Constraint assurance (assure_different_constraints) -/

/-- Attributes of a value consulted by the constraint pass:
arch_irn_is_ignore, mode_is_datab, and whether the value has users
(has_irn_users). -/
structure CNAttr where
  ignore   : Bool
  datab    : Bool
  hasUsers : Bool

/-- One node of the schedule segment before irn, walked by find_copy:
whether it is a Copy, its copied operand, and its dont_spill flag.  The
list is ordered from irn backwards (closest first); the schedule begin
ends the list. -/
structure PrevCopy where
  id        : Nat
  isCopy    : Bool
  copyOp    : Nat
  dontSpill : Bool

/-- Embedding of find_copy: walk backwards through directly preceding Copy
nodes and return the first non-spillable copy of op; stop at the first
non-Copy. -/
def find_copy : List PrevCopy → Nat → Option Nat
  | [], _ => none
  | p :: rest, op =>
    if !p.isCopy then none
    else if p.copyOp == op && p.dontSpill then some p.id
    else find_copy rest op

/-- A node created by gen_assure_different_pattern: a fresh non-spillable
Copy of the different operand, a CopyKeep over it, or a plain Keep. -/
inductive CGen where
  | copyNode (src : Nat)
  | copyKeepNode (src : Nat)
  | keepNode (src : Nat)
deriving DecidableEq, Repr

/-- Embedding of gen_assure_different_pattern: nothing is created when the
other operand is ignorable or not a datab value; otherwise a non-spillable
copy is reused when find_copy locates one and created otherwise, and a
CopyKeep (when the operand has users) or a Keep is always created. -/
def gen_assure_different_pattern (attrs : Nat → CNAttr)
    (before : List PrevCopy) (other : Nat) : List CGen :=
  if (attrs other).ignore || !(attrs other).datab then []
  else
    let cpyNew : List CGen :=
      match find_copy before other with
      | some _ => []
      | none => [CGen.copyNode other]
    let keep : CGen :=
      if (attrs other).hasUsers then CGen.copyKeepNode other
      else CGen.keepNode other
    cpyNew ++ [keep]

/-- Modelled from the spec: is_po2 from the bit-fiddling helpers (not under
src/); true exactly for the single-bit masks the specification speaks
about. -/
def is_po2 (n : Nat) : Bool := n != 0 && n &&& (n - 1) == 0

/-- Modelled from the spec: ntz (number of trailing zeros) from the
bit-fiddling helpers (not under src/); the index selected by a single-bit
mask. -/
def ntz (n : Nat) : Nat := (List.range (n + 1)).findIdx (fun i => n.testBit i)

/-- The bit loop of assure_different_constraints: for i = 0 while
2^i <= other, generate the pattern for every set bit i.  The loop runs at
most other + 1 times, which the caller passes as fuel. -/
def assure_diff_loop (g : Nat → List CGen) (other : Nat) :
    Nat → Nat → List CGen
  | _, 0 => []
  | i, fuel + 1 =>
    if 2 ^ i ≤ other then
      (if other &&& 2 ^ i != 0 then g i else []) ++
        assure_diff_loop g other (i + 1) fuel
    else []

/-- Embedding of assure_different_constraints for a value-producing node
whose requirement carries must_be_different over mask other and (possibly)
should_be_same over mask same.  skippedInputs are the inputs of the
node's skipped predecessor (get_irn_n of skipped_irn); an out-of-range
index in the C code would be undefined behaviour and is modelled by the
Option comparison resp. a default. -/
def assure_different_constraints (attrs : Nat → CNAttr)
    (before : List PrevCopy) (mustDiff : Bool) (other : Nat)
    (shouldSame : Bool) (same : Nat) (skippedInputs : List Nat) : List CGen :=
  if !mustDiff then []
  else
    if shouldSame && is_po2 other && is_po2 same &&
        (skippedInputs.get? (ntz other) == skippedInputs.get? (ntz same)) then
      []
    else
      assure_diff_loop
        (fun i => gen_assure_different_pattern attrs before
          (skippedInputs.getD i 0))
        other 0 (other + 1)

/-! ## Lemmas about the scratch-register finder -/

theorem length_set_reg_in_use (v : NodeVal) (b : Bool) (regs : List Bool) :
    (set_reg_in_use v b regs).length = regs.length := by
  unfold set_reg_in_use
  split <;> simp

theorem length_update_reg_defs (n : SNode) (b : Bool) (regs : List Bool) :
    (update_reg_defs n b regs).length = regs.length := by
  unfold update_reg_defs
  induction n.defs generalizing regs with
  | nil => rfl
  | cons v l ih => simpa [List.foldl_cons, length_set_reg_in_use] using
      (ih (set_reg_in_use v b regs)).trans (length_set_reg_in_use v b regs)

theorem length_update_reg_uses (n : SNode) (regs : List Bool) :
    (update_reg_uses n regs).length = regs.length := by
  unfold update_reg_uses
  induction n.uses generalizing regs with
  | nil => rfl
  | cons v l ih => simpa [List.foldl_cons, length_set_reg_in_use] using
      (ih (set_reg_in_use v true regs)).trans (length_set_reg_in_use v true regs)

theorem getD_set_true_stable (l : List Bool) (j i : Nat)
    (h : l.getD i false = true) : (l.set j true).getD i false = true := by
  rcases eq_or_ne j i with rfl | hne
  · by_cases hlt : j < l.length
    · simp [List.getD_eq_getElem?_getD, List.getElem?_set_self hlt]
    · rw [List.set_eq_of_length_le (Nat.le_of_not_lt hlt)]
      exact h
  · rw [List.getD_eq_getElem?_getD, List.getElem?_set_ne hne,
      ← List.getD_eq_getElem?_getD]
    exact h

theorem getD_set_true_self (l : List Bool) (j : Nat) (hlt : j < l.length) :
    (l.set j true).getD j false = true := by
  simp [List.getD_eq_getElem?_getD, List.getElem?_set_self hlt]

theorem getD_set_reg_true_stable (v : NodeVal) (regs : List Bool) (i : Nat)
    (h : regs.getD i false = true) :
    (set_reg_in_use v true regs).getD i false = true := by
  unfold set_reg_in_use
  split
  · exact getD_set_true_stable regs v.regIdx i h
  · exact h

theorem getD_set_reg_true_self (v : NodeVal) (regs : List Bool)
    (hgood : (v.isData && !v.virt && v.clsOk) = true)
    (hlt : v.regIdx < regs.length) :
    (set_reg_in_use v true regs).getD v.regIdx false = true := by
  unfold set_reg_in_use
  rw [if_pos hgood]
  exact getD_set_true_self regs v.regIdx hlt

theorem getD_foldl_set_true_stable (l : List NodeVal) (regs : List Bool)
    (i : Nat) (h : regs.getD i false = true) :
    (l.foldl (fun r v => set_reg_in_use v true r) regs).getD i false = true := by
  induction l generalizing regs with
  | nil => exact h
  | cons v l ih => exact ih _ (getD_set_reg_true_stable v regs i h)

theorem length_foldl_set_reg (b : Bool) (l : List NodeVal) (regs : List Bool) :
    (l.foldl (fun r v => set_reg_in_use v b r) regs).length = regs.length := by
  induction l generalizing regs with
  | nil => rfl
  | cons v l ih => rw [List.foldl_cons, ih, length_set_reg_in_use]

theorem getD_foldl_set_true_self (l : List NodeVal) (regs : List Bool)
    (v : NodeVal) (hv : v ∈ l)
    (hgood : (v.isData && !v.virt && v.clsOk) = true)
    (hlt : v.regIdx < regs.length) :
    (l.foldl (fun r v => set_reg_in_use v true r) regs).getD v.regIdx false
      = true := by
  induction l generalizing regs with
  | nil => cases hv
  | cons w l ih =>
    rw [List.foldl_cons]
    rcases List.mem_cons.mp hv with hw | hw
    · subst hw
      exact getD_foldl_set_true_stable l _ _
        (getD_set_reg_true_self v regs hgood hlt)
    · exact ih _ hw (by rw [length_set_reg_in_use]; exact hlt)

theorem getD_update_reg_uses_stable (n : SNode) (regs : List Bool) (i : Nat)
    (h : regs.getD i false = true) :
    (update_reg_uses n regs).getD i false = true :=
  getD_foldl_set_true_stable n.uses regs i h

theorem getD_update_reg_defs_true_self (n : SNode) (regs : List Bool)
    (v : NodeVal) (hv : v ∈ n.defs)
    (hgood : (v.isData && !v.virt && v.clsOk) = true)
    (hlt : v.regIdx < regs.length) :
    (update_reg_defs n true regs).getD v.regIdx false = true :=
  getD_foldl_set_true_self n.defs regs v hv hgood hlt

theorem getD_update_reg_uses_self (n : SNode) (regs : List Bool)
    (v : NodeVal) (hv : v ∈ n.uses)
    (hgood : (v.isData && !v.virt && v.clsOk) = true)
    (hlt : v.regIdx < regs.length) :
    (update_reg_uses n regs).getD v.regIdx false = true :=
  getD_foldl_set_true_self n.uses regs v hv hgood hlt

theorem scratch_walk_append (permId : Nat) (l rest : List SNode)
    (regs : List Bool)
    (h : ∀ n ∈ l, n.isPhi = false ∧ n.nid ≠ permId) :
    scratch_walk permId (l ++ rest) regs =
      scratch_walk permId rest
        (l.foldl (fun r n => update_reg_uses n (update_reg_defs n false r)) regs) := by
  induction l generalizing regs with
  | nil => rfl
  | cons n l ih =>
    obtain ⟨hphi, hnid⟩ := h n (List.mem_cons_self ..)
    have hb : (n.nid == permId) = false := by
      simpa using hnid
    simp only [List.cons_append, scratch_walk, hphi, hb, Bool.false_eq_true,
      if_false, List.foldl_cons]
    exact ih _ (fun m hm => h m (List.mem_cons_of_mem _ hm))

theorem scratch_walk_at_perm (permId : Nat) (P : SNode) (rest : List SNode)
    (regs : List Bool) (hphi : P.isPhi = false) (hid : P.nid = permId) :
    scratch_walk permId (P :: rest) regs =
      update_reg_uses P (update_reg_defs P true regs) := by
  simp [scratch_walk, hphi, hid]

theorem pickFrom_eq_some_iff (inUse : List Bool) (okay : Nat → Bool) :
    ∀ (k i r : Nat),
      (pickFrom inUse okay i k = some r ↔
        (i ≤ r ∧ r < i + k ∧ inUse.getD r false = false ∧ okay r = true ∧
         ∀ j, i ≤ j → j < r →
           inUse.getD j false = true ∨ okay j = false)) := by
  intro k
  induction k with
  | zero =>
    intro i r
    simp only [pickFrom, Nat.add_zero]
    constructor
    · intro h; cases h
    · rintro ⟨h1, h2, -⟩; omega
  | succ k ih =>
    intro i r
    simp only [pickFrom]
    by_cases hfree : inUse.getD i false = true
    · have hc : (!(inUse.getD i false) && okay i) = false := by
        rw [hfree]
        rfl
      rw [hc, if_neg (by simp), ih (i + 1) r]
      constructor
      · rintro ⟨h1, h2, h3, h4, hmin⟩
        refine ⟨by omega, by omega, h3, h4, fun j hj1 hj2 => ?_⟩
        rcases Nat.eq_or_lt_of_le hj1 with rfl | hlt
        · exact Or.inl hfree
        · exact hmin j hlt hj2
      · rintro ⟨h1, h2, h3, h4, hmin⟩
        have hir : i ≠ r := by
          rintro rfl
          rw [h3] at hfree
          cases hfree
        exact ⟨by omega, by omega, h3, h4, fun j hj1 hj2 => hmin j (by omega) hj2⟩
    · have hfree2 : inUse.getD i false = false := by
        revert hfree
        cases inUse.getD i false <;> simp
      by_cases hok : okay i = true
      · have hc : (!(inUse.getD i false) && okay i) = true := by
          rw [hfree2, hok]
          rfl
        rw [hc, if_pos rfl]
        constructor
        · intro h
          obtain rfl := Option.some.inj h
          exact ⟨Nat.le_refl _, by omega, hfree2, hok,
            fun j h1 h2 => absurd (Nat.lt_of_le_of_lt h1 h2) (Nat.lt_irrefl _)⟩
        · rintro ⟨h1, h2, h3, h4, hmin⟩
          rcases Nat.eq_or_lt_of_le h1 with rfl | hlt
          · rfl
          · rcases hmin i (Nat.le_refl _) hlt with hbad | hbad
            · rw [hfree2] at hbad; cases hbad
            · rw [hok] at hbad; cases hbad
      · have hok2 : okay i = false := by
          revert hok
          cases okay i <;> simp
        have hc : (!(inUse.getD i false) && okay i) = false := by
          rw [hok2]
          simp
        rw [hc, if_neg (by simp), ih (i + 1) r]
        constructor
        · rintro ⟨h1, h2, h3, h4, hmin⟩
          refine ⟨by omega, by omega, h3, h4, fun j hj1 hj2 => ?_⟩
          rcases Nat.eq_or_lt_of_le hj1 with rfl | hlt
          · exact Or.inr hok2
          · exact hmin j hlt hj2
        · rintro ⟨h1, h2, h3, h4, hmin⟩
          have hir : i ≠ r := by
            rintro rfl
            rw [h4] at hok2
            cases hok2
          exact ⟨by omega, by omega, h3, h4, fun j hj1 hj2 => hmin j (by omega) hj2⟩

theorem pickFrom_eq_none_iff (inUse : List Bool) (okay : Nat → Bool) :
    ∀ (k i : Nat),
      (pickFrom inUse okay i k = none ↔
        ∀ j, i ≤ j → j < i + k →
          inUse.getD j false = true ∨ okay j = false) := by
  intro k
  induction k with
  | zero =>
    intro i
    simp only [pickFrom]
    exact ⟨fun _ j h1 h2 => absurd h2 (by omega), fun _ => trivial⟩
  | succ k ih =>
    intro i
    simp only [pickFrom]
    by_cases hfree : inUse.getD i false = true
    · have hc : (!(inUse.getD i false) && okay i) = false := by
        rw [hfree]
        rfl
      rw [hc, if_neg (by simp), ih (i + 1)]
      constructor
      · intro h j hj1 hj2
        rcases Nat.eq_or_lt_of_le hj1 with rfl | hlt
        · exact Or.inl hfree
        · exact h j hlt (by omega)
      · intro h j hj1 hj2
        exact h j (by omega) (by omega)
    · have hfree2 : inUse.getD i false = false := by
        revert hfree
        cases inUse.getD i false <;> simp
      by_cases hok : okay i = true
      · have hc : (!(inUse.getD i false) && okay i) = true := by
          rw [hfree2, hok]
          rfl
        rw [hc, if_pos rfl]
        constructor
        · intro h; cases h
        · intro h
          rcases h i (Nat.le_refl _) (by omega) with hb | hb
          · rw [hfree2] at hb; cases hb
          · rw [hok] at hb; cases hb
      · have hok2 : okay i = false := by
          revert hok
          cases okay i <;> simp
        have hc : (!(inUse.getD i false) && okay i) = false := by
          rw [hok2]
          simp
        rw [hc, if_neg (by simp), ih (i + 1)]
        constructor
        · intro h j hj1 hj2
          rcases Nat.eq_or_lt_of_le hj1 with rfl | hlt
          · exact Or.inr hok2
          · exact h j hlt (by omega)
        · intro h j hj1 hj2
          exact h j (by omega) (by omega)

theorem length_walk_fold (l : List SNode) (regs : List Bool) :
    (l.foldl (fun r n => update_reg_uses n (update_reg_defs n false r)) regs).length
      = regs.length := by
  induction l generalizing regs with
  | nil => rfl
  | cons n l ih =>
    rw [List.foldl_cons, ih, length_update_reg_uses, length_update_reg_defs]

/-- C9: the scratch-register finder is deterministic: the register it
records for the Perm is exactly the lowest-indexed register of the class
that is free at the Perm's program point (per the computed in-use array)
and allocatable; and whenever some free allocatable register exists, one is
recorded. -/
theorem C9_find_free_register_lowest (sched : List SNode)
    (liveEnd : List NodeVal) (permId nRegs : Nat) (globalIdx : Nat → Nat)
    (allocatable : Nat → Bool) :
    (∀ r : Nat,
      find_free_register sched liveEnd permId nRegs globalIdx allocatable
          = some r ↔
        (r < nRegs ∧
         (compute_regs_in_use sched liveEnd permId nRegs).getD r false = false ∧
         allocatable (globalIdx r) = true ∧
         ∀ j < r,
           (compute_regs_in_use sched liveEnd permId nRegs).getD j false = true ∨
           allocatable (globalIdx j) = false)) ∧
    ((∃ j, j < nRegs ∧
       (compute_regs_in_use sched liveEnd permId nRegs).getD j false = false ∧
       allocatable (globalIdx j) = true) →
      ∃ r, find_free_register sched liveEnd permId nRegs globalIdx allocatable
        = some r) := by
  constructor
  · intro r
    rw [find_free_register,
      pickFrom_eq_some_iff (compute_regs_in_use sched liveEnd permId nRegs)
        (fun i => allocatable (globalIdx i)) nRegs 0 r]
    constructor
    · rintro ⟨-, h2, h3, h4, hmin⟩
      exact ⟨by omega, h3, h4, fun j hj => hmin j (Nat.zero_le _) hj⟩
    · rintro ⟨h1, h2, h3, hmin⟩
      exact ⟨Nat.zero_le _, by omega, h2, h3, fun j _ hj => hmin j hj⟩
  · rintro ⟨j, hj, hfree, hok⟩
    rcases hres : find_free_register sched liveEnd permId nRegs globalIdx
        allocatable with _ | r
    · rw [find_free_register] at hres
      rcases (pickFrom_eq_none_iff (compute_regs_in_use sched liveEnd permId
          nRegs) (fun i => allocatable (globalIdx i)) nRegs 0).mp hres j
          (Nat.zero_le _) (by omega) with hb | hb
      · rw [hfree] at hb; cases hb
      · rw [hok] at hb; cases hb
    · exact ⟨r, rfl⟩

/-- C9 witness: on an empty schedule with one allocatable register, the
finder reports register 0, and it is the lowest free allocatable one. -/
theorem C9_witness :
    find_free_register [] [] 0 1 (fun i => i) (fun _ => true) = some 0 :=
  ((C9_find_free_register_lowest [] [] 0 1 (fun i => i) (fun _ => true)).1 0).mpr
    (by decide)

/-- C1 counterexample: a Perm P (id 1) using register 0 and defining
register 1 through its Proj, in a block whose schedule is just P, with an
empty live-out set and both registers allocatable.  Register 1 is used only
as an output of P and is otherwise free and allocatable, yet
find_free_register reports nothing at all (the code marks P's defs in use
instead of clearing them), refuting the claim that such a register can be
reported as P's scratch register. -/
theorem C1_counterexample :
    find_free_register
        [{ nid := 1
           isPhi := false
           defs := [{ isData := true, virt := false, clsOk := true, regIdx := 1 }]
           uses := [{ isData := true, virt := false, clsOk := true, regIdx := 0 }] }]
        [] 1 2 (fun i => i) (fun _ => true) = none ∧
    find_free_register
        [{ nid := 1
           isPhi := false
           defs := [{ isData := true, virt := false, clsOk := true, regIdx := 1 }]
           uses := [{ isData := true, virt := false, clsOk := true, regIdx := 0 }] }]
        [] 1 2 (fun i => i) (fun _ => true) ≠ some 1 := by
  constructor
  · rfl
  · decide

/-- C1 (amended): when the reverse schedule walk reaches the Perm P (no Phi
or second occurrence of P after it in the block), the in-use bits of the
registers P defines are SET, not cleared, and P's input registers are set
as well; consequently no register that P defines or uses (of the class,
non-virtual, data-mode) is ever reported as P's free scratch register. -/
theorem C1_amended (A B : List SNode) (P : SNode) (liveEnd : List NodeVal)
    (nRegs : Nat) (globalIdx : Nat → Nat) (allocatable : Nat → Bool)
    (v : NodeVal)
    (hB : ∀ n ∈ B, n.isPhi = false ∧ n.nid ≠ P.nid)
    (hPphi : P.isPhi = false)
    (hv : v ∈ P.defs ∨ v ∈ P.uses)
    (hgood : (v.isData && !v.virt && v.clsOk) = true)
    (hlt : v.regIdx < nRegs) :
    (compute_regs_in_use (A ++ P :: B) liveEnd P.nid nRegs).getD v.regIdx false
        = true ∧
    find_free_register (A ++ P :: B) liveEnd P.nid nRegs globalIdx allocatable
        ≠ some v.regIdx := by
  have hrev : (A ++ P :: B).reverse = B.reverse ++ P :: A.reverse := by
    simp
  have hwalk : compute_regs_in_use (A ++ P :: B) liveEnd P.nid nRegs =
      update_reg_uses P (update_reg_defs P true
        (B.reverse.foldl (fun r n => update_reg_uses n (update_reg_defs n false r))
          (liveEnd.foldl (fun r v => set_reg_in_use v true r)
            (List.replicate nRegs false)))) := by
    unfold compute_regs_in_use
    rw [hrev, scratch_walk_append P.nid B.reverse (P :: A.reverse) _
      (fun n hn => hB n (List.mem_reverse.mp hn)),
      scratch_walk_at_perm P.nid P A.reverse _ hPphi rfl]
  have hlen : (B.reverse.foldl
      (fun r n => update_reg_uses n (update_reg_defs n false r))
      (liveEnd.foldl (fun r v => set_reg_in_use v true r)
        (List.replicate nRegs false))).length = nRegs := by
    rw [length_walk_fold, length_foldl_set_reg, List.length_replicate]
  have hmarked : (compute_regs_in_use (A ++ P :: B) liveEnd P.nid nRegs).getD
      v.regIdx false = true := by
    rw [hwalk]
    rcases hv with hd | hu
    · exact getD_update_reg_uses_stable P _ _
        (getD_update_reg_defs_true_self P _ v hd hgood (by rw [hlen]; exact hlt))
    · exact getD_update_reg_uses_self P _ v hu hgood
        (by rw [length_update_reg_defs, hlen]; exact hlt)
  refine ⟨hmarked, fun hsome => ?_⟩
  rw [find_free_register] at hsome
  have := ((pickFrom_eq_some_iff _ _ nRegs 0 v.regIdx).mp hsome).2.2.1
  rw [hmarked] at this
  cases this

/-- C1 witness: the amended statement evaluated on the counterexample
block: register 1, defined by P only, is marked in use and never
reported. -/
theorem C1_witness :
    (compute_regs_in_use
        ([] ++ { nid := 1
                 isPhi := false
                 defs := [{ isData := true, virt := false, clsOk := true, regIdx := 1 }]
                 uses := [{ isData := true, virt := false, clsOk := true, regIdx := 0 }] } :: [])
        [] 1 2).getD 1 false = true ∧
    find_free_register
        ([] ++ { nid := 1
                 isPhi := false
                 defs := [{ isData := true, virt := false, clsOk := true, regIdx := 1 }]
                 uses := [{ isData := true, virt := false, clsOk := true, regIdx := 0 }] } :: [])
        [] 1 2 (fun i => i) (fun _ => true) ≠ some 1 :=
  C1_amended [] []
    { nid := 1
      isPhi := false
      defs := [{ isData := true, virt := false, clsOk := true, regIdx := 1 }]
      uses := [{ isData := true, virt := false, clsOk := true, regIdx := 0 }] }
    [] 2 (fun i => i) (fun _ => true)
    { isData := true, virt := false, clsOk := true, regIdx := 1 }
    (by intro n hn; cases hn) (by rfl) (Or.inl (by decide)) (by rfl)
    (by decide)

/-! ## Lemmas about the decomposer -/

theorem findIdx?_isSome_of_exists {α : Type} (l : List α) (p : α → Bool)
    (h : ∃ x ∈ l, p x = true) : (l.findIdx? p).isSome = true := by
  induction l with
  | nil => rcases h with ⟨x, hx, -⟩; cases hx
  | cons a l ih =>
    rw [List.findIdx?_cons]
    rcases h with ⟨x, hx, hpx⟩
    rcases List.mem_cons.mp hx with rfl | hx2
    · rw [hpx]
      rfl
    · cases hpa : p a
      · simpa using ih ⟨x, hx2, hpx⟩
      · rfl

theorem gpmi_back_type (pairs : List reg_pair)
    (hclosed : ∀ p ∈ pairs, ∃ q ∈ pairs, q.out_reg = p.in_reg) :
    ∀ (fuel head cur start : Nat) (ty : perm_type) (s1 : Nat),
      (∃ p ∈ pairs, p.in_reg = head) →
      gpmi_back pairs fuel head cur start = some (ty, s1) →
      ty = perm_type.cycle := by
  intro fuel
  induction fuel with
  | zero => intro _ _ _ _ _ _ h; cases h
  | succ fuel ih =>
    intro head cur start ty s1 hhead h
    rw [gpmi_back] at h
    by_cases heq : (head == cur) = true
    · rw [if_pos heq] at h
      injection h with hpair
      injection hpair with hty hs
      exact hty.symm
    · rw [if_neg heq] at h
      rcases hhead with ⟨p, hp, hpin⟩
      rcases hclosed p hp with ⟨q, hq, hqout⟩
      have hsome : (get_pairidx_for_out_regidx pairs head).isSome = true := by
        unfold get_pairidx_for_out_regidx
        exact findIdx?_isSome_of_exists pairs _
          ⟨q, hq, by rw [hqout, hpin]; exact beq_self_eq_true _⟩
      cases hidx : get_pairidx_for_out_regidx pairs head with
      | none => rw [hidx] at hsome; cases hsome
      | some i =>
        simp only [hidx] at h
        cases hget : pairs.get? i with
        | none => simp only [hget] at h; cases h
        | some p2 =>
          simp only [hget] at h
          exact ih p2.in_reg cur i ty s1
            ⟨p2, List.get?_mem hget, rfl⟩ h

theorem gpmi_fwd_cycle (pairs : List reg_pair) :
    ∀ (fuel cur head : Nat) (acc es : List Nat) (ty1 : perm_type),
      gpmi_fwd pairs fuel cur head perm_type.cycle acc = some (es, ty1) →
      ty1 = perm_type.cycle := by
  intro fuel
  induction fuel with
  | zero => intro _ _ _ _ _ h; cases h
  | succ fuel ih =>
    intro cur head acc es ty1 h
    rw [gpmi_fwd] at h
    by_cases heq : (cur == head) = true
    · rw [if_pos heq] at h
      injection h with hpair
      injection hpair with he ht
      exact ht.symm
    · rw [if_neg heq] at h
      cases hidx : get_pairidx_for_in_regidx pairs cur with
      | none =>
        simp only [hidx] at h
        injection h with hpair
        injection hpair with he ht
        exact ht.symm
      | some i =>
        simp only [hidx] at h
        cases hget : pairs.get? i with
        | none => simp only [hget] at h; cases h
        | some p =>
          simp only [hget] at h
          by_cases hout : (p.out_reg == head) = true
          · rw [if_pos hout] at h
            injection h with hpair
            injection hpair with he ht
            exact ht.symm
          · rw [if_neg hout] at h
            exact ih p.out_reg head (acc ++ [p.out_reg]) es ty1 h

/-- C3 counterexample: the single-pair array [(r1 -> r2)] (a genuine chain,
as produced for a Perm that only moves r1's value into the dead register
r2) decomposes, from its only pair, into a Move with exactly two elements
tagged Chain — refuting the claim that a 2-element Move is always a
Cycle. -/
theorem C3_counterexample :
    (get_perm_move_info
        [{ in_reg := 1, in_node := 10, out_reg := 2, out_node := 20,
           checked := false }] 0 5).map
      (fun mp => (mp.1.elems.length, mp.1.type)) =
      some (2, perm_type.chain) := by
  rfl

/-- C3 (amended): a 2-element Move is tagged Chain exactly when its start
register is produced by no pair; when the pair array is closed (every in
register also occurs as an out register, as for a full register
permutation), every Move the decomposer returns — in particular every Move
of length 2 — is tagged Cycle. -/
theorem C3_amended (pairs : List reg_pair) (start fuel : Nat)
    (move : perm_move) (pairs1 : List reg_pair)
    (hclosed : ∀ p ∈ pairs, ∃ q ∈ pairs, q.out_reg = p.in_reg)
    (h : get_perm_move_info pairs start fuel = some (move, pairs1)) :
    move.type = perm_type.cycle := by
  unfold get_perm_move_info at h
  cases hp0 : pairs.get? start with
  | none => simp only [hp0] at h; cases h
  | some p0 =>
    simp only [hp0] at h
    cases hback : gpmi_back pairs fuel p0.in_reg p0.out_reg start with
    | none => simp only [hback] at h; cases h
    | some ts =>
      obtain ⟨ty, s1⟩ := ts
      have hty : ty = perm_type.cycle :=
        gpmi_back_type pairs hclosed fuel p0.in_reg p0.out_reg start ty s1
          ⟨p0, List.get?_mem hp0, rfl⟩ hback
      subst hty
      simp only [hback] at h
      cases hps : pairs.get? s1 with
      | none => simp only [hps] at h; cases h
      | some ps =>
        simp only [hps] at h
        cases hfwd : gpmi_fwd pairs fuel ps.out_reg ps.in_reg perm_type.cycle
            [ps.in_reg, ps.out_reg] with
        | none => simp only [hfwd] at h; cases h
        | some et =>
          obtain ⟨es, ty1⟩ := et
          have hty1 : ty1 = perm_type.cycle :=
            gpmi_fwd_cycle pairs fuel ps.out_reg ps.in_reg _ es ty1 hfwd
          simp only [hfwd] at h
          injection h with hpair
          injection hpair with hmv hp
          rw [← hmv]
          exact hty1

/-- C3 witness: the swap pair array [(r1 -> r2), (r2 -> r1)] is closed and
its Move (of length 2) is tagged Cycle. -/
theorem C3_witness :
    (∀ p ∈ [({ in_reg := 1, in_node := 10, out_reg := 2, out_node := 21,
               checked := false } : reg_pair),
            { in_reg := 2, in_node := 11, out_reg := 1, out_node := 22,
              checked := false }],
       ∃ q ∈ [({ in_reg := 1, in_node := 10, out_reg := 2, out_node := 21,
                 checked := false } : reg_pair),
              { in_reg := 2, in_node := 11, out_reg := 1, out_node := 22,
                checked := false }], q.out_reg = p.in_reg) ∧
    ({ elems := [2, 1], type := perm_type.cycle } : perm_move).type
      = perm_type.cycle :=
  ⟨by decide,
   C3_amended
     [{ in_reg := 1, in_node := 10, out_reg := 2, out_node := 21,
        checked := false },
      { in_reg := 2, in_node := 11, out_reg := 1, out_node := 22,
        checked := false }] 0 9
     { elems := [2, 1], type := perm_type.cycle }
     [{ in_reg := 1, in_node := 10, out_reg := 2, out_node := 21,
        checked := true },
      { in_reg := 2, in_node := 11, out_reg := 1, out_node := 22,
        checked := true }]
     (by decide) (by rfl)⟩

/-! ## Lemmas about the constraint-assurance pass -/

theorem assure_diff_loop_mem (g : Nat → List CGen) (other : Nat) :
    ∀ (fuel i0 i : Nat), i0 ≤ i → i < i0 + fuel → 2 ^ i ≤ other →
      other &&& 2 ^ i ≠ 0 →
      ∀ x ∈ g i, x ∈ assure_diff_loop g other i0 fuel := by
  intro fuel
  induction fuel with
  | zero => intro i0 i h1 h2; omega
  | succ fuel ih =>
    intro i0 i h1 h2 hle hbit x hx
    rw [assure_diff_loop]
    have hle0 : 2 ^ i0 ≤ other :=
      Nat.le_trans (Nat.pow_le_pow_right (by omega) h1) hle
    rw [if_pos hle0]
    rcases Nat.eq_or_lt_of_le h1 with rfl | hlt
    · refine List.mem_append_left _ ?_
      have hb : (other &&& 2 ^ i0 != 0) = true := by
        simpa using hbit
      rw [if_pos hb]
      exact hx
    · exact List.mem_append_right _ (ih (i0 + 1) i hlt (by omega) hle hbit x hx)

theorem gen_pattern_ne_nil (attrs : Nat → CNAttr) (before : List PrevCopy)
    (d : Nat) (hig : (attrs d).ignore = false) (hdb : (attrs d).datab = true) :
    gen_assure_different_pattern attrs before d ≠ [] := by
  unfold gen_assure_different_pattern
  rw [if_neg (by rw [hig, hdb]; simp)]
  cases find_copy before d <;> simp

/-- C8 counterexample: a node with a must_be_different requirement over the
single-bit mask M = 1 and no should_be_same constraint, whose selected
input (node 7) is ignorable: the pass generates no copy and no keep for it,
refuting the claim that a copy/keep pattern is generated for each set bit
of M. -/
theorem C8_counterexample :
    assure_different_constraints
        (fun n => if n == 7 then { ignore := true, datab := true, hasUsers := true }
         else { ignore := false, datab := true, hasUsers := true })
        [] true 1 false 0 [7] = [] ∧
    (1 : Nat) &&& 2 ^ 0 ≠ 0 := by
  constructor
  · rfl
  · decide

/-- C8 (amended): when the node also carries a should_be_same constraint
and both masks are single-bit masks selecting the same input node, nothing
is generated (the constraint is skipped); otherwise, for every set bit i of
the must_be_different mask whose selected input is neither ignorable nor a
non-data value, the copy/keep pattern generated for that input appears in
the output (and that pattern is nonempty); ignorable and non-data inputs
are skipped. -/
theorem C8_amended (attrs : Nat → CNAttr) (before : List PrevCopy)
    (other same : Nat) (shouldSame : Bool) (skippedInputs : List Nat) :
    (shouldSame = true → is_po2 other = true → is_po2 same = true →
      skippedInputs.get? (ntz other) = skippedInputs.get? (ntz same) →
      assure_different_constraints attrs before true other shouldSame same
        skippedInputs = []) ∧
    (∀ i : Nat,
      (shouldSame && is_po2 other && is_po2 same &&
        (skippedInputs.get? (ntz other) == skippedInputs.get? (ntz same)))
        = false →
      other &&& 2 ^ i ≠ 0 → 2 ^ i ≤ other →
      (attrs (skippedInputs.getD i 0)).ignore = false →
      (attrs (skippedInputs.getD i 0)).datab = true →
      (∀ x ∈ gen_assure_different_pattern attrs before (skippedInputs.getD i 0),
        x ∈ assure_different_constraints attrs before true other shouldSame same
          skippedInputs) ∧
      gen_assure_different_pattern attrs before (skippedInputs.getD i 0)
        ≠ []) := by
  constructor
  · intro hss hpo hps heq
    unfold assure_different_constraints
    rw [if_neg (by simp)]
    rw [if_pos (by rw [hss, hpo, hps, heq]; simp)]
  · intro i hskip hbit hle hig hdb
    constructor
    · intro x hx
      unfold assure_different_constraints
      rw [if_neg (by simp), if_neg (by rw [hskip]; simp)]
      refine assure_diff_loop_mem _ other (other + 1) 0 i (Nat.zero_le _)
        ?_ hle hbit x hx
      have : i < 2 ^ i := Nat.lt_two_pow i
      omega
    · exact gen_pattern_ne_nil attrs before _ hig hdb

/-- C8 witness: the amended statement at mask M = 1 over a single ordinary
input (node 8): the generated pattern for node 8 is nonempty and contained
in the output. -/
theorem C8_witness :
    (∀ x ∈ gen_assure_different_pattern
        (fun _ => { ignore := false, datab := true, hasUsers := true }) [] 8,
      x ∈ assure_different_constraints
        (fun _ => { ignore := false, datab := true, hasUsers := true })
        [] true 1 false 0 [8]) ∧
    gen_assure_different_pattern
        (fun _ => { ignore := false, datab := true, hasUsers := true }) [] 8
      ≠ [] :=
  (C8_amended (fun _ => { ignore := false, datab := true, hasUsers := true })
    [] 1 0 false [8]).2 0 (by rfl) (by decide) (by decide) (by rfl) (by rfl)

/-! ## Lemmas about schedules and push_through_perm -/

theorem sched_prev_of_not_mem : ∀ (l : List Nat) (x : Nat), x ∉ l →
    sched_prev_of l x = none := by
  intro l
  induction l with
  | nil => intro x _; rfl
  | cons a l ih =>
    intro x hx
    cases l with
    | nil => rfl
    | cons b rest =>
      have hbx : (b == x) = false := by
        simp only [beq_eq_false_iff_ne, ne_eq]
        intro h
        exact hx (by rw [h]; exact List.mem_cons_of_mem _ (List.mem_cons_self ..))
      rw [sched_prev_of, hbx]
      simp only [Bool.false_eq_true, if_false]
      exact ih x (fun h => hx (List.mem_cons_of_mem _ h))

theorem sched_prev_of_split : ∀ (l : List Nat) (x a : Nat),
    sched_prev_of l x = some a → ∃ P Q, l = P ++ a :: x :: Q := by
  intro l
  induction l with
  | nil => intro x a h; cases h
  | cons a0 l ih =>
    intro x a h
    cases l with
    | nil => cases h
    | cons b rest =>
      rw [sched_prev_of] at h
      by_cases hbx : (b == x) = true
      · rw [if_pos hbx] at h
        obtain rfl := Option.some.inj h
        exact ⟨[], rest, by rw [List.nil_append, beq_iff_eq.mp hbx]⟩
      · rw [if_neg hbx] at h
        obtain ⟨P, Q, hPQ⟩ := ih x a h
        exact ⟨a0 :: P, Q, by rw [List.cons_append, hPQ]⟩

theorem sched_prev_of_cons_skip (p : Nat) (b : Nat) (rest : List Nat)
    (x : Nat) (hbx : b ≠ x) :
    sched_prev_of (p :: b :: rest) x = sched_prev_of (b :: rest) x := by
  rw [sched_prev_of]
  rw [if_neg (by simpa using hbx)]

theorem sched_prev_of_append : ∀ (P : List Nat) (a x : Nat) (Q : List Nat),
    x ∉ P → x ≠ a → sched_prev_of (P ++ a :: x :: Q) x = some a := by
  intro P
  induction P with
  | nil =>
    intro a x Q _ _
    rw [List.nil_append, sched_prev_of]
    simp
  | cons p P ih =>
    intro a x Q hxP hxa
    have hx2 : x ∉ P := fun h => hxP (List.mem_cons_of_mem _ h)
    rw [List.cons_append]
    cases P with
    | nil =>
      rw [List.nil_append]
      rw [sched_prev_of_cons_skip p a (x :: Q) x (fun h => hxa h.symm)]
      rw [sched_prev_of]
      simp
    | cons c P2 =>
      have hcx : c ≠ x := fun h => hx2 (h ▸ List.mem_cons_self ..)
      rw [show (c :: P2) ++ a :: x :: Q = c :: (P2 ++ a :: x :: Q) from rfl]
      rw [sched_prev_of_cons_skip p c (P2 ++ a :: x :: Q) x hcx]
      exact ih a x Q hx2 hxa

theorem sched_add_after_append : ∀ (P : List Nat) (pos x : Nat) (Q : List Nat),
    pos ∉ P → sched_add_after (P ++ pos :: Q) pos x = P ++ pos :: x :: Q := by
  intro P
  induction P with
  | nil =>
    intro pos x Q _
    rw [List.nil_append, sched_add_after]
    simp
  | cons p P ih =>
    intro pos x Q hpos
    have hp : (p == pos) = false := by
      simp only [beq_eq_false_iff_ne, ne_eq]
      intro h
      exact hpos (h ▸ List.mem_cons_self ..)
    rw [List.cons_append, sched_add_after, hp]
    simp only [Bool.false_eq_true, if_false, List.cons_append]
    rw [ih pos x Q (fun h => hpos (List.mem_cons_of_mem _ h))]

theorem mem_sched_add_after : ∀ (l : List Nat) (pos x y : Nat),
    (y ∈ sched_add_after l pos x ↔ y ∈ l ∨ y = x) := by
  intro l
  induction l with
  | nil =>
    intro pos x y
    simp [sched_add_after]
  | cons a l ih =>
    intro pos x y
    rw [sched_add_after]
    by_cases ha : (a == pos) = true
    · rw [if_pos ha]
      simp only [List.mem_cons]
      constructor
      · rintro (rfl | rfl | h)
        · exact Or.inl (Or.inl rfl)
        · exact Or.inr rfl
        · exact Or.inl (Or.inr h)
      · rintro ((rfl | h) | rfl)
        · exact Or.inl rfl
        · exact Or.inr (Or.inr h)
        · exact Or.inr (Or.inl rfl)
    · rw [if_neg ha]
      simp only [List.mem_cons, ih pos x y]
      tauto

theorem nodup_sched_add_after : ∀ (l : List Nat) (pos x : Nat),
    l.Nodup → x ∉ l → (sched_add_after l pos x).Nodup := by
  intro l
  induction l with
  | nil => intro pos x _ _; simp [sched_add_after]
  | cons a l ih =>
    intro pos x hnd hx
    have hax : a ≠ x := fun h => hx (h ▸ List.mem_cons_self ..)
    have hxl : x ∉ l := fun h => hx (List.mem_cons_of_mem _ h)
    rw [List.nodup_cons] at hnd
    rw [sched_add_after]
    by_cases ha : (a == pos) = true
    · rw [if_pos ha]
      refine List.nodup_cons.mpr ⟨?_, List.nodup_cons.mpr ⟨hxl, hnd.2⟩⟩
      simp only [List.mem_cons]
      rintro (rfl | h)
      · exact hax rfl
      · exact hnd.1 h
    · rw [if_neg ha]
      refine List.nodup_cons.mpr ⟨?_, ih pos x hnd.2 hxl⟩
      rw [mem_sched_add_after]
      rintro (h | rfl)
      · exact hnd.1 h
      · exact hax rfl

theorem mem_takeWhile_of_split (P Q : List Nat) (a x : Nat)
    (hP : x ∉ P) (hax : a ≠ x) :
    a ∈ (P ++ a :: x :: Q).takeWhile (fun y => y != x) := by
  induction P with
  | nil =>
    rw [List.nil_append, List.takeWhile_cons]
    rw [if_pos (by simpa using hax)]
    exact List.mem_cons_self ..
  | cons p P ih =>
    rw [List.cons_append, List.takeWhile_cons]
    rw [if_pos (by
      simp only [bne_iff_ne, ne_eq]
      intro h
      exact hP (h ▸ List.mem_cons_self ..))]
    exact List.mem_cons_of_mem _ (ih (fun h => hP (List.mem_cons_of_mem _ h)))

theorem find_input_proj_perm_none (st : PtpState) (permId : Nat)
    (hnotin : permId ∉ st.permInputs) : find_input_proj st permId = none := by
  unfold find_input_proj
  rw [List.find?_eq_none]
  intro pr _
  simp only [beq_iff_eq, ne_eq]
  intro h
  exact hnotin (List.get?_mem h)

theorem ptp_loop_stop (env : Nat → PNodeAttr) (permId : Nat)
    (frontier : Option Nat) (fuel : Nat) (st : PtpState) (node : Nat)
    (hcond : hoist_cond env frontier st node = false) :
    ptp_loop env permId frontier fuel (some node) st = st := by
  cases fuel with
  | zero => rfl
  | succ fuel =>
    rw [ptp_loop]
    cases hfind : find_input_proj st node with
    | none => rfl
    | some pr =>
      simp only [hfind]
      unfold hoist_cond at hcond
      rw [hfind] at hcond
      simp only [Option.isSome_some, Bool.true_and] at hcond
      by_cases hfa : frontier_allows st.sched frontier node = true
      · rw [hfa, Bool.true_and] at hcond
        rw [if_neg (by rw [hfa]; simp)]
        by_cases hmf : (env node).modifyFlags = true
        · rw [if_pos hmf]
        · rw [if_neg hmf]
          have hmf2 : (env node).modifyFlags = false := by
            revert hmf
            cases (env node).modifyFlags <;> simp
          rw [hmf2] at hcond
          simp only [Bool.not_false, Bool.true_and] at hcond
          by_cases hrn : (env node).reqNormal = true
          · rw [hrn, Bool.true_and] at hcond
            rw [if_neg (by rw [hrn]; simp)]
            rw [if_pos (by
              revert hcond
              cases (env node).inputs.any (fun op => (env op).considerC) <;> simp)]
          · rw [if_pos (by
              revert hrn
              cases (env node).reqNormal <;> simp)]
      · rw [if_pos (by
          revert hfa
          cases frontier_allows st.sched frontier node <;> simp)]

theorem ptp_loop_once (env : Nat → PNodeAttr) (permId : Nat)
    (frontier : Option Nat) (st : PtpState) (fuel : Nat)
    (hnodup : st.sched.Nodup) (hnotin : permId ∉ st.permInputs) :
    ptp_loop env permId frontier fuel (sched_prev_of st.sched permId) st = st ∨
    (∃ node pr, sched_prev_of st.sched permId = some node ∧
      find_input_proj st node = some pr ∧
      hoist_cond env frontier st node = true ∧
      ptp_loop env permId frontier fuel (sched_prev_of st.sched permId) st
        = ptp_move permId st node pr) := by
  cases hcur : sched_prev_of st.sched permId with
  | none =>
    left
    cases fuel <;> rfl
  | some node =>
    obtain ⟨P, Q, hPQ⟩ := sched_prev_of_split st.sched permId node hcur
    have hnodeperm : node ≠ permId := by
      rintro rfl
      rw [hPQ] at hnodup
      have := (List.nodup_append.mp hnodup).2.1
      rw [List.nodup_cons] at this
      exact this.1 (List.mem_cons_self ..)
    have hnodemem : node ∈ st.sched := by
      rw [hPQ]
      exact List.mem_append_right _ (List.mem_cons_self ..)
    have hpermmem : permId ∈ st.sched := by
      rw [hPQ]
      exact List.mem_append_right _ (List.mem_cons_of_mem _ (List.mem_cons_self ..))
    by_cases hcond : hoist_cond env frontier st node = true
    · cases fuel with
      | zero => left; rfl
      | succ fuel =>
        right
        cases hfind : find_input_proj st node with
        | none =>
          unfold hoist_cond at hcond
          rw [hfind] at hcond
          simp at hcond
        | some pr =>
          refine ⟨node, pr, rfl, hfind, hcond, ?_⟩
          unfold hoist_cond at hcond
          rw [hfind] at hcond
          simp only [Option.isSome_some, Bool.true_and, Bool.and_eq_true] at hcond
          obtain ⟨⟨⟨hfa, hmf⟩, hrn⟩, hinp⟩ := hcond
          rw [ptp_loop]
          simp only [hfind]
          rw [if_neg (by rw [hfa]; simp)]
          rw [if_neg (by
            revert hmf
            cases (env node).modifyFlags <;> simp)]
          rw [if_neg (by rw [hrn]; simp)]
          rw [if_neg (by
            revert hinp
            cases (env node).inputs.any (fun op => (env op).considerC) <;> simp)]
          set st1 := ptp_move permId st node pr with hst1
          have hprev1 : sched_prev_of st1.sched node = some permId := by
            have hmemerase : permId ∈ st.sched.erase node :=
              (List.mem_erase_of_ne (fun h => hnodeperm h.symm)).mpr hpermmem
            obtain ⟨P2, Q2, hP2⟩ := List.append_of_mem hmemerase
            have hnder : (st.sched.erase node).Nodup := hnodup.erase node
            have hpermP2 : permId ∉ P2 := by
              rw [hP2] at hnder
              intro h
              exact (List.nodup_append.mp hnder).2.2 h (List.mem_cons_self ..)
            have hnodeer : node ∉ st.sched.erase node := by
              intro h
              exact ((List.Nodup.mem_erase_iff hnodup).mp h).1 rfl
            have : st1.sched = P2 ++ permId :: node :: Q2 := by
              show sched_add_after (st.sched.erase node) permId node = _
              rw [hP2, sched_add_after_append P2 permId node Q2 hpermP2]
            rw [this]
            refine sched_prev_of_append P2 permId node Q2 ?_ hnodeperm
            intro h
            exact hnodeer (by rw [hP2]; exact List.mem_append_left _ h)
          rw [hprev1]
          cases fuel with
          | zero => rfl
          | succ fuel =>
            rw [ptp_loop]
            rw [find_input_proj_perm_none st1 permId hnotin]
    · left
      exact ptp_loop_stop env permId frontier fuel st node
        (by revert hcond; cases hoist_cond env frontier st node <;> simp)

theorem ptp_loop_none (env : Nat → PNodeAttr) (permId : Nat)
    (frontier : Option Nat) (fuel : Nat) (st : PtpState) :
    ptp_loop env permId frontier fuel none st = st := by
  cases fuel <;> rfl

theorem push_through_perm_hoisted (env : Nat → PNodeAttr) (permId : Nat)
    (st : PtpState) :
    (push_through_perm env permId st).2.hoisted =
      (ptp_loop env permId
        (compute_frontier env (st.sched.takeWhile (fun y => y != permId)))
        (st.sched.length + 1) (sched_prev_of st.sched permId) st).hoisted := by
  dsimp only [push_through_perm]
  split
  · rfl
  · split
    · rfl
    · rfl

/-- C5: push_through_perm returns true exactly when the Perm is still in
the schedule (and not killed); it returns false exactly when every input
slot was moved past the Perm, the Perm was removed from the schedule and
killed. -/
theorem C5_push_through_perm_result (env : Nat → PNodeAttr) (permId : Nat)
    (st : PtpState)
    (hmem : permId ∈ st.sched) (hnodup : st.sched.Nodup)
    (hnotin : permId ∉ st.permInputs)
    (hmv : st.movedSlots = []) (hkill : st.killed = false) :
    ((push_through_perm env permId st).1 = true ↔
      permId ∈ (push_through_perm env permId st).2.sched) ∧
    ((push_through_perm env permId st).1 = false ↔
      ((push_through_perm env permId st).2.movedSlots.length
          = st.permInputs.length ∧
       (push_through_perm env permId st).2.movedSlots.length ≠ 0 ∧
       permId ∉ (push_through_perm env permId st).2.sched ∧
       (push_through_perm env permId st).2.killed = true)) := by
  rcases ptp_loop_once env permId
      (compute_frontier env (st.sched.takeWhile (fun y => y != permId)))
      st (st.sched.length + 1) hnodup hnotin with
    heq | ⟨node, pr, hprev, hfind, hcond, heq⟩
  · have hres : push_through_perm env permId st = (true, st) := by
      dsimp only [push_through_perm]
      rw [heq, hmv]
      rfl
    rw [hres]
    refine ⟨⟨fun _ => hmem, fun _ => rfl⟩, ?_⟩
    constructor
    · intro h; cases h
    · rintro ⟨-, -, -, hk⟩
      rw [hkill] at hk
      cases hk
  · obtain ⟨P, Q, hPQ⟩ := sched_prev_of_split st.sched permId node hprev
    have hnodeperm : node ≠ permId := by
      rintro rfl
      rw [hPQ] at hnodup
      have := (List.nodup_append.mp hnodup).2.1
      rw [List.nodup_cons] at this
      exact this.1 (List.mem_cons_self ..)
    have hnodeer : node ∉ st.sched.erase node := by
      intro h
      exact ((List.Nodup.mem_erase_iff hnodup).mp h).1 rfl
    have hmemerase : permId ∈ st.sched.erase node :=
      (List.mem_erase_of_ne (fun h => hnodeperm h.symm)).mpr hmem
    have hnd1 : (ptp_move permId st node pr).sched.Nodup :=
      nodup_sched_add_after _ permId node (hnodup.erase node) hnodeer
    have hmem1 : permId ∈ (ptp_move permId st node pr).sched :=
      (mem_sched_add_after _ permId node permId).mpr (Or.inl hmemerase)
    have hmoved1 : (ptp_move permId st node pr).movedSlots = [pr.pn] := by
      show st.movedSlots ++ [pr.pn] = [pr.pn]
      rw [hmv, List.nil_append]
    have harity1 : 1 ≤ st.permInputs.length := by
      have hp := List.find?_some hfind
      rw [beq_iff_eq] at hp
      have hne : st.permInputs ≠ [] := by
        intro h
        rw [h] at hp
        simp at hp
      have := List.length_pos.mpr hne
      omega
    by_cases harity : st.permInputs.length = 1
    · have hres : push_through_perm env permId st =
          (false,
            { ptp_move permId st node pr with
              sched := (ptp_move permId st node pr).sched.erase permId
              killed := true }) := by
        dsimp only [push_through_perm]
        rw [heq, hmoved1, harity]
        rfl
      rw [hres]
      have hnotmem : permId ∉ ((ptp_move permId st node pr).sched.erase permId) := by
        intro h
        exact ((List.Nodup.mem_erase_iff hnd1).mp h).1 rfl
      refine ⟨⟨fun h => (nomatch h), fun h => absurd h hnotmem⟩, ?_⟩
      refine ⟨fun _ => ?_, fun _ => rfl⟩
      refine ⟨?_, ?_, hnotmem, rfl⟩
      · show (st.movedSlots ++ [pr.pn]).length = st.permInputs.length
        rw [hmv, harity]
        rfl
      · show (st.movedSlots ++ [pr.pn]).length ≠ 0
        rw [hmv]
        simp
    · have hr1 : (push_through_perm env permId st).1 = true := by
        dsimp only [push_through_perm]
        rw [heq, hmoved1]
        rw [if_neg (by simp)]
        rw [if_neg (by
          show ¬ st.permInputs.length - 1 = 0
          omega)]
      have hr2 : (push_through_perm env permId st).2.sched =
          (ptp_move permId st node pr).sched := by
        dsimp only [push_through_perm]
        rw [heq, hmoved1]
        rw [if_neg (by simp)]
        rw [if_neg (by
          show ¬ st.permInputs.length - 1 = 0
          omega)]
      have hr3 : (push_through_perm env permId st).2.movedSlots = [pr.pn] := by
        dsimp only [push_through_perm]
        rw [heq, hmoved1]
        rw [if_neg (by simp)]
        rw [if_neg (by
          show ¬ st.permInputs.length - 1 = 0
          omega)]
      have hr4 : (push_through_perm env permId st).2.killed = false := by
        dsimp only [push_through_perm]
        rw [heq, hmoved1]
        rw [if_neg (by simp)]
        rw [if_neg (by
          show ¬ st.permInputs.length - 1 = 0
          omega)]
        show st.killed = false
        exact hkill
      refine ⟨⟨fun _ => by rw [hr2]; exact hmem1, fun _ => hr1⟩, ?_⟩
      constructor
      · intro h
        rw [hr1] at h
        cases h
      · rintro ⟨hlen, -, -⟩
        rw [hr3] at hlen
        exact absurd hlen.symm (by simpa using harity)

/-- C5 witness: a Perm (id 5) of arity 1 whose single input (node 3) is
directly before it and hoistable: the Perm is removed, push_through_perm
answers false, and the equivalences of the theorem hold. -/
theorem C5_witness :
    (((push_through_perm
        (fun n => if n == 3 then
          { inputs := [9], modifyFlags := false, reqNormal := true,
            considerC := false, interferes := false, defsValues := [],
            interferesAnyLiveOut := false }
         else
          { inputs := [], modifyFlags := false, reqNormal := true,
            considerC := false, interferes := false, defsValues := [],
            interferesAnyLiveOut := false }) 5
        { sched := [4, 3, 5], permInputs := [3], projs := [⟨20, 0, 7⟩],
          regAssign := [], exchanged := [], hoisted := [], movedSlots := [],
          killed := false }).1 = true ↔
      5 ∈ (push_through_perm
        (fun n => if n == 3 then
          { inputs := [9], modifyFlags := false, reqNormal := true,
            considerC := false, interferes := false, defsValues := [],
            interferesAnyLiveOut := false }
         else
          { inputs := [], modifyFlags := false, reqNormal := true,
            considerC := false, interferes := false, defsValues := [],
            interferesAnyLiveOut := false }) 5
        { sched := [4, 3, 5], permInputs := [3], projs := [⟨20, 0, 7⟩],
          regAssign := [], exchanged := [], hoisted := [], movedSlots := [],
          killed := false }).2.sched) ∧
     ((push_through_perm
        (fun n => if n == 3 then
          { inputs := [9], modifyFlags := false, reqNormal := true,
            considerC := false, interferes := false, defsValues := [],
            interferesAnyLiveOut := false }
         else
          { inputs := [], modifyFlags := false, reqNormal := true,
            considerC := false, interferes := false, defsValues := [],
            interferesAnyLiveOut := false }) 5
        { sched := [4, 3, 5], permInputs := [3], projs := [⟨20, 0, 7⟩],
          regAssign := [], exchanged := [], hoisted := [], movedSlots := [],
          killed := false }).1 = false ↔
      ((push_through_perm
        (fun n => if n == 3 then
          { inputs := [9], modifyFlags := false, reqNormal := true,
            considerC := false, interferes := false, defsValues := [],
            interferesAnyLiveOut := false }
         else
          { inputs := [], modifyFlags := false, reqNormal := true,
            considerC := false, interferes := false, defsValues := [],
            interferesAnyLiveOut := false }) 5
        { sched := [4, 3, 5], permInputs := [3], projs := [⟨20, 0, 7⟩],
          regAssign := [], exchanged := [], hoisted := [], movedSlots := [],
          killed := false }).2.movedSlots.length = 1 ∧
       (push_through_perm
        (fun n => if n == 3 then
          { inputs := [9], modifyFlags := false, reqNormal := true,
            considerC := false, interferes := false, defsValues := [],
            interferesAnyLiveOut := false }
         else
          { inputs := [], modifyFlags := false, reqNormal := true,
            considerC := false, interferes := false, defsValues := [],
            interferesAnyLiveOut := false }) 5
        { sched := [4, 3, 5], permInputs := [3], projs := [⟨20, 0, 7⟩],
          regAssign := [], exchanged := [], hoisted := [], movedSlots := [],
          killed := false }).2.movedSlots.length ≠ 0 ∧
       5 ∉ (push_through_perm
        (fun n => if n == 3 then
          { inputs := [9], modifyFlags := false, reqNormal := true,
            considerC := false, interferes := false, defsValues := [],
            interferesAnyLiveOut := false }
         else
          { inputs := [], modifyFlags := false, reqNormal := true,
            considerC := false, interferes := false, defsValues := [],
            interferesAnyLiveOut := false }) 5
        { sched := [4, 3, 5], permInputs := [3], projs := [⟨20, 0, 7⟩],
          regAssign := [], exchanged := [], hoisted := [], movedSlots := [],
          killed := false }).2.sched ∧
       (push_through_perm
        (fun n => if n == 3 then
          { inputs := [9], modifyFlags := false, reqNormal := true,
            considerC := false, interferes := false, defsValues := [],
            interferesAnyLiveOut := false }
         else
          { inputs := [], modifyFlags := false, reqNormal := true,
            considerC := false, interferes := false, defsValues := [],
            interferesAnyLiveOut := false }) 5
        { sched := [4, 3, 5], permInputs := [3], projs := [⟨20, 0, 7⟩],
          regAssign := [], exchanged := [], hoisted := [], movedSlots := [],
          killed := false }).2.killed = true))) :=
  C5_push_through_perm_result _ 5 _ (by decide) (by decide) (by decide)
    (by rfl) (by rfl)

/-- C10: when no schedule predecessor of the Perm satisfies all hoisting
conditions, push_through_perm returns 1 and the state — the schedule, the
Perm's inputs and arity, its Projs and their numbers, the register
assignments, the exchanges — is left completely unchanged. -/
theorem C10_push_through_perm_noop (env : Nat → PNodeAttr) (permId : Nat)
    (st : PtpState) (hnodup : st.sched.Nodup)
    (hmv : st.movedSlots = [])
    (hfail : ∀ node ∈ st.sched.takeWhile (fun y => y != permId),
      hoist_cond env (compute_frontier env
        (st.sched.takeWhile (fun y => y != permId))) st node = false) :
    push_through_perm env permId st = (true, st) := by
  have hloop : ptp_loop env permId
      (compute_frontier env (st.sched.takeWhile (fun y => y != permId)))
      (st.sched.length + 1) (sched_prev_of st.sched permId) st = st := by
    cases hcur : sched_prev_of st.sched permId with
    | none => exact ptp_loop_none ..
    | some node =>
      obtain ⟨P, Q, hPQ⟩ := sched_prev_of_split st.sched permId node hcur
      have hnodeperm : node ≠ permId := by
        rintro rfl
        rw [hPQ] at hnodup
        have := (List.nodup_append.mp hnodup).2.1
        rw [List.nodup_cons] at this
        exact this.1 (List.mem_cons_self ..)
      have hpermP : permId ∉ P := by
        rw [hPQ] at hnodup
        intro h
        exact (List.nodup_append.mp hnodup).2.2 h
          (List.mem_cons_of_mem _ (List.mem_cons_self ..))
      have hmemtw : node ∈ st.sched.takeWhile (fun y => y != permId) := by
        rw [hPQ]
        exact mem_takeWhile_of_split P Q node permId hpermP hnodeperm
      exact ptp_loop_stop env permId _ _ st node (hfail node hmemtw)
  dsimp only [push_through_perm]
  rw [hloop, hmv]
  rfl

/-- C10 witness: a Perm (id 5) whose only schedule predecessor (node 4,
one of its inputs) modifies the CPU flags: nothing is hoisted and the call
leaves the state untouched. -/
theorem C10_witness :
    push_through_perm
        (fun _ =>
          { inputs := []
            modifyFlags := true
            reqNormal := true
            considerC := false
            interferes := false
            defsValues := []
            interferesAnyLiveOut := false }) 5
        { sched := [4, 5], permInputs := [4], projs := [⟨20, 0, 7⟩],
          regAssign := [], exchanged := [], hoisted := [], movedSlots := [],
          killed := false } =
      (true,
        { sched := [4, 5], permInputs := [4], projs := [⟨20, 0, 7⟩],
          regAssign := [], exchanged := [], hoisted := [], movedSlots := [],
          killed := false }) :=
  C10_push_through_perm_noop _ 5 _ (by decide) (by rfl) (by decide)

theorem find?_eq_some_split {α : Type} (l : List α) (p : α → Bool) (a : α) :
    (l.find? p = some a ↔
      ∃ l1 l2, l = l1 ++ a :: l2 ∧ p a = true ∧ ∀ x ∈ l1, p x = false) := by
  induction l with
  | nil =>
    constructor
    · intro h; cases h
    · rintro ⟨l1, l2, h, -, -⟩
      cases l1 <;> cases h
  | cons b l ih =>
    rw [List.find?_cons]
    cases hb : p b with
    | true =>
      constructor
      · intro h
        obtain rfl := Option.some.inj h
        exact ⟨[], l, rfl, hb, fun x hx => (nomatch hx)⟩
      · rintro ⟨l1, l2, hsplit, hpa, hmin⟩
        cases l1 with
        | nil =>
          obtain ⟨rfl, rfl⟩ : b = a ∧ l = l2 := by
            rw [List.nil_append] at hsplit
            exact ⟨(List.cons.injEq .. ▸ hsplit).1, (List.cons.injEq .. ▸ hsplit).2⟩
          rfl
        | cons c l1 =>
          obtain ⟨rfl, -⟩ : b = c ∧ l = l1 ++ a :: l2 := by
            rw [List.cons_append] at hsplit
            exact ⟨(List.cons.injEq .. ▸ hsplit).1, (List.cons.injEq .. ▸ hsplit).2⟩
          rw [hmin b (List.mem_cons_self ..)] at hb
          cases hb
    | false =>
      rw [ih]
      constructor
      · rintro ⟨l1, l2, hsplit, hpa, hmin⟩
        refine ⟨b :: l1, l2, by rw [hsplit, List.cons_append], hpa, ?_⟩
        intro x hx
        rcases List.mem_cons.mp hx with rfl | hx2
        · exact hb
        · exact hmin x hx2
      · rintro ⟨l1, l2, hsplit, hpa, hmin⟩
        cases l1 with
        | nil =>
          obtain ⟨rfl, -⟩ : b = a ∧ l = l2 := by
            rw [List.nil_append] at hsplit
            exact ⟨(List.cons.injEq .. ▸ hsplit).1, (List.cons.injEq .. ▸ hsplit).2⟩
          rw [hpa] at hb
          cases hb
        | cons c l1 =>
          obtain ⟨rfl, hl⟩ : b = c ∧ l = l1 ++ a :: l2 := by
            rw [List.cons_append] at hsplit
            exact ⟨(List.cons.injEq .. ▸ hsplit).1, (List.cons.injEq .. ▸ hsplit).2⟩
          exact ⟨l1, l2, hl, hpa, fun x hx =>
            hmin x (List.mem_cons_of_mem _ hx)⟩

/-- C2 counterexample: a single schedule predecessor A (id 3) whose only
operand (value 9) is of class C and does not interfere with the chosen
Proj, while A defines nothing at all.  The code's frontier walk stops at A
(an operand of class C dies there), but the frontier described by the
claim — the first node defining, in class C, a value interfering with a
live output — does not exist in this block, so the two disagree. -/
theorem C2_counterexample :
    compute_frontier
        (fun n => if n == 9 then
          { inputs := [], modifyFlags := false, reqNormal := true,
            considerC := true, interferes := false, defsValues := [],
            interferesAnyLiveOut := false }
         else
          { inputs := [9], modifyFlags := false, reqNormal := true,
            considerC := false, interferes := false, defsValues := [],
            interferesAnyLiveOut := false }) [3] = some 3 ∧
    frontier_claim
        (fun n => if n == 9 then
          { inputs := [], modifyFlags := false, reqNormal := true,
            considerC := true, interferes := false, defsValues := [],
            interferesAnyLiveOut := false }
         else
          { inputs := [9], modifyFlags := false, reqNormal := true,
            considerC := false, interferes := false, defsValues := [],
            interferesAnyLiveOut := false }) [3] = none := by
  constructor
  · rfl
  · rfl

/-- C2 (amended): the frontier computed by push_through_perm is the first
node, walking schedule predecessors of the Perm, that has an operand of
class C not interfering with the chosen Proj (a class-C operand dying
there) — not a node defining an interfering value; and no node at or
before the frontier is hoisted: every hoisted node comes strictly after
the frontier in the schedule. -/
theorem C2_amended (env : Nat → PNodeAttr) (permId : Nat) (st : PtpState)
    (f : Nat) (hnodup : st.sched.Nodup) (hnotin : permId ∉ st.permInputs)
    (hhoist : st.hoisted = []) :
    (compute_frontier env (st.sched.takeWhile (fun y => y != permId))
        = some f ↔
      ∃ B1 B2, st.sched.takeWhile (fun y => y != permId) = B1 ++ f :: B2 ∧
        op_dies env f = true ∧ ∀ x ∈ B2, op_dies env x = false) ∧
    (∀ n ∈ (push_through_perm env permId st).2.hoisted,
      frontier_allows st.sched
        (compute_frontier env (st.sched.takeWhile (fun y => y != permId))) n
        = true) := by
  constructor
  · unfold compute_frontier
    rw [find?_eq_some_split]
    constructor
    · rintro ⟨l1, l2, hsplit, hpf, hmin⟩
      refine ⟨l2.reverse, l1.reverse, ?_, hpf, ?_⟩
      · rw [← List.reverse_reverse (st.sched.takeWhile _), hsplit]
        rw [List.reverse_append, List.reverse_cons, List.append_assoc]
        rfl
      · intro x hx
        exact hmin x (List.mem_reverse.mp hx)
    · rintro ⟨B1, B2, hsplit, hpf, hmin⟩
      refine ⟨B2.reverse, B1.reverse, ?_, hpf, ?_⟩
      · rw [hsplit, List.reverse_append, List.reverse_cons, List.append_assoc]
        rfl
      · intro x hx
        exact hmin x (List.mem_reverse.mp hx)
  · intro n hn
    rw [push_through_perm_hoisted] at hn
    rcases ptp_loop_once env permId
        (compute_frontier env (st.sched.takeWhile (fun y => y != permId)))
        st (st.sched.length + 1) hnodup hnotin with
      heq | ⟨node, pr, hprev, hfind, hcond, heq⟩
    · rw [heq, hhoist] at hn
      cases hn
    · rw [heq] at hn
      have : n = node := by
        have : (ptp_move permId st node pr).hoisted = [node] := by
          show st.hoisted ++ [node] = [node]
          rw [hhoist, List.nil_append]
        rw [this] at hn
        rcases List.mem_cons.mp hn with rfl | h2
        · rfl
        · cases h2
      subst this
      unfold hoist_cond at hcond
      rw [hfind] at hcond
      simp only [Option.isSome_some, Bool.true_and, Bool.and_eq_true] at hcond
      exact hcond.1.1.1

/-- C2 witness: in a block where the only predecessor of the Perm (id 5)
is node 3, whose operand 9 is class-C and non-interfering, the frontier is
node 3, matching the amended characterisation; no node was hoisted at or
before it. -/
theorem C2_witness :
    (compute_frontier
        (fun n => if n == 9 then
          { inputs := [], modifyFlags := false, reqNormal := true,
            considerC := true, interferes := false, defsValues := [],
            interferesAnyLiveOut := false }
         else
          { inputs := [9], modifyFlags := false, reqNormal := true,
            considerC := false, interferes := false, defsValues := [],
            interferesAnyLiveOut := false })
        (([3, 5] : List Nat).takeWhile (fun y => y != 5)) = some 3 ↔
      ∃ B1 B2, ([3, 5] : List Nat).takeWhile (fun y => y != 5)
          = B1 ++ 3 :: B2 ∧
        op_dies
          (fun n => if n == 9 then
            { inputs := [], modifyFlags := false, reqNormal := true,
              considerC := true, interferes := false, defsValues := [],
              interferesAnyLiveOut := false }
           else
            { inputs := [9], modifyFlags := false, reqNormal := true,
              considerC := false, interferes := false, defsValues := [],
              interferesAnyLiveOut := false }) 3 = true ∧
        ∀ x ∈ B2,
          op_dies
            (fun n => if n == 9 then
              { inputs := [], modifyFlags := false, reqNormal := true,
                considerC := true, interferes := false, defsValues := [],
                interferesAnyLiveOut := false }
             else
              { inputs := [9], modifyFlags := false, reqNormal := true,
                considerC := false, interferes := false, defsValues := [],
                interferesAnyLiveOut := false }) x = false) ∧
    (∀ n ∈ (push_through_perm
        (fun n => if n == 9 then
          { inputs := [], modifyFlags := false, reqNormal := true,
            considerC := true, interferes := false, defsValues := [],
            interferesAnyLiveOut := false }
         else
          { inputs := [9], modifyFlags := false, reqNormal := true,
            considerC := false, interferes := false, defsValues := [],
            interferesAnyLiveOut := false }) 5
        { sched := [3, 5], permInputs := [7], projs := [⟨20, 0, 2⟩],
          regAssign := [], exchanged := [], hoisted := [], movedSlots := [],
          killed := false }).2.hoisted,
      frontier_allows [3, 5]
        (compute_frontier
          (fun n => if n == 9 then
            { inputs := [], modifyFlags := false, reqNormal := true,
              considerC := true, interferes := false, defsValues := [],
              interferesAnyLiveOut := false }
           else
            { inputs := [9], modifyFlags := false, reqNormal := true,
              considerC := false, interferes := false, defsValues := [],
              interferesAnyLiveOut := false })
          (([3, 5] : List Nat).takeWhile (fun y => y != 5))) n = true) :=
  C2_amended _ 5
    { sched := [3, 5], permInputs := [7], projs := [⟨20, 0, 2⟩],
      regAssign := [], exchanged := [], hoisted := [], movedSlots := [],
      killed := false } 3 (by decide) (by decide) (by rfl)

/-! ## Lemmas about the Perm lowerer -/

theorem swap_intermediate_frame (st1 : LowSt) (ri : Nat) (res1 : Option Nat)
    (k : Nat) :
    (swap_intermediate st1 ri res1 k).1.emitted = st1.emitted ∧
    (swap_intermediate st1 ri res1 k).1.keep_perm = st1.keep_perm ∧
    (swap_intermediate st1 ri res1 k).1.permRemoved = st1.permRemoved := by
  dsimp only [swap_intermediate]
  split
  · cases hpi : get_pairidx_for_in_regidx st1.pairs ri with
    | none => simp [hpi]
    | some pidx => simp [hpi]
  · exact ⟨rfl, rfl, rfl⟩

theorem swap_loop_frame (elems : List Nat) : ∀ (k sp : Nat) (st : LowSt),
    (swap_loop elems k sp st).keep_perm = st.keep_perm ∧
    (swap_loop elems k sp st).permRemoved = st.permRemoved := by
  intro k
  induction k with
  | zero => intro sp st; exact ⟨rfl, rfl⟩
  | succ k ih =>
    intro sp st
    dsimp only [swap_loop]
    constructor
    · rw [(ih _ _).1]
      exact (swap_intermediate_frame _ _ _ _).2.1
    · rw [(ih _ _).2]
      exact (swap_intermediate_frame _ _ _ _).2.2

theorem swap_loop_xchg (elems : List Nat) : ∀ (k sp : Nat) (st : LowSt)
    (id2 : Nat) (l : List (Option Nat)),
    ENode.xchg id2 l ∈ (swap_loop elems k sp st).emitted →
    ENode.xchg id2 l ∈ st.emitted ∨ l.length = 2 := by
  intro k
  induction k with
  | zero => intro sp st id2 l h; exact Or.inl h
  | succ k ih =>
    intro sp st id2 l h
    dsimp only [swap_loop] at h
    rcases ih _ _ _ _ h with h2 | h2
    · have hred := (swap_intermediate_frame
        { st with
          emitted := st.emitted ++ [ENode.xchg st.nextId
            [get_node_for_in_register st.pairs (elems.getD k 0),
             get_node_for_in_register st.pairs (elems.getD (k + 1) 0)]],
          nextId := st.nextId + 1 }
        (elems.getD k 0) (get_node_for_out_register st.pairs (elems.getD k 0))
        k).1
      rw [show (ENode.xchg id2 l ∈ _) = _ from rfl] at h2
      rw [hred] at h2
      rcases List.mem_append.mp h2 with h3 | h3
      · exact Or.inl h3
      · rcases List.mem_cons.mp h3 with h4 | h4
        · right
          injection h4 with hid hl
          rw [hl]
          rfl
        · cases h4
    · exact Or.inr h2

theorem copy_loop_frame (elems : List Nat) : ∀ (k sp : Nat) (st : LowSt),
    (copy_loop elems k sp st).1.keep_perm = st.keep_perm ∧
    (copy_loop elems k sp st).1.permRemoved = st.permRemoved ∧
    (copy_loop elems k sp st).1.pairs = st.pairs := by
  intro k
  induction k with
  | zero => intro sp st; exact ⟨rfl, rfl, rfl⟩
  | succ k ih =>
    intro sp st
    dsimp only [copy_loop]
    exact ⟨(ih _ _).1, (ih _ _).2.1, (ih _ _).2.2⟩

theorem copy_loop_xchg (elems : List Nat) : ∀ (k sp : Nat) (st : LowSt)
    (id2 : Nat) (l : List (Option Nat)),
    ENode.xchg id2 l ∈ (copy_loop elems k sp st).1.emitted →
    ENode.xchg id2 l ∈ st.emitted := by
  intro k
  induction k with
  | zero => intro sp st id2 l h; exact h
  | succ k ih =>
    intro sp st id2 l h
    dsimp only [copy_loop] at h
    have h2 := ih _ _ _ _ h
    rcases List.mem_append.mp h2 with h3 | h3
    · exact h3
    · rcases List.mem_cons.mp h3 with h4 | h4
      · cases h4
      · cases h4

theorem split_chain_shape (irn : Nat) (move : perm_move) (st st1 : LowSt)
    (h : split_chain_into_copies irn move st = some st1) :
    st1.keep_perm = st.keep_perm ∧ st1.permRemoved = st.permRemoved ∧
    ∀ id2 l, ENode.xchg id2 l ∈ st1.emitted →
      ENode.xchg id2 l ∈ st.emitted ∨ l.length = 2 := by
  unfold split_chain_into_copies at h
  cases hp : sched_prev_of st.sched irn with
  | none => rw [hp] at h; cases h
  | some sp =>
    rw [hp] at h
    obtain rfl := Option.some.inj h
    exact ⟨(copy_loop_frame _ _ _ _).1, (copy_loop_frame _ _ _ _).2.1,
      fun id2 l hm => Or.inl (copy_loop_xchg _ _ _ _ _ _ hm)⟩

theorem split_cycle_copies_shape (irn : Nat) (move : perm_move) (r : Nat)
    (st st1 : LowSt)
    (h : split_cycle_into_copies irn move r st = some st1) :
    st1.keep_perm = st.keep_perm ∧ st1.permRemoved = st.permRemoved ∧
    ∀ id2 l, ENode.xchg id2 l ∈ st1.emitted →
      ENode.xchg id2 l ∈ st.emitted ∨ l.length = 2 := by
  unfold split_cycle_into_copies at h
  cases hp : sched_prev_of st.sched irn with
  | none => rw [hp] at h; cases h
  | some sp =>
    rw [hp] at h
    obtain rfl := Option.some.inj h
    refine ⟨(copy_loop_frame _ _ _ _).1, (copy_loop_frame _ _ _ _).2.1,
      fun id2 l hm => ?_⟩
    rcases List.mem_append.mp hm with h3 | h3
    · have h4 := copy_loop_xchg _ _ _ _ _ _ h3
      rcases List.mem_append.mp h4 with h5 | h5
      · exact Or.inl h5
      · rcases List.mem_cons.mp h5 with h6 | h6
        · cases h6
        · cases h6
    · rcases List.mem_cons.mp h3 with h6 | h6
      · cases h6
      · cases h6

theorem split_cycle_swaps_shape (irn : Nat) (move : perm_move) (st st1 : LowSt)
    (h : split_cycle_into_swaps irn move st = some st1) :
    st1.keep_perm = st.keep_perm ∧ st1.permRemoved = st.permRemoved ∧
    ∀ id2 l, ENode.xchg id2 l ∈ st1.emitted →
      ENode.xchg id2 l ∈ st.emitted ∨ l.length = 2 := by
  unfold split_cycle_into_swaps at h
  cases hp : sched_prev_of st.sched irn with
  | none => rw [hp] at h; cases h
  | some sp =>
    rw [hp] at h
    obtain rfl := Option.some.inj h
    exact ⟨(swap_loop_frame _ _ _ _).1, (swap_loop_frame _ _ _ _).2,
      fun id2 l hm => swap_loop_xchg _ _ _ _ _ _ hm⟩

theorem reduce_perm_size_shape (irn : Nat) (move : perm_move)
    (freeReg : Option Nat) (st st1 : LowSt)
    (h : reduce_perm_size irn move freeReg st = some st1) :
    st1.keep_perm = st.keep_perm ∧ st1.permRemoved = st.permRemoved ∧
    ∀ id2 l, ENode.xchg id2 l ∈ st1.emitted →
      ENode.xchg id2 l ∈ st.emitted ∨ l.length = 2 := by
  rcases move with ⟨elems, ty⟩
  cases ty with
  | chain =>
    rw [show reduce_perm_size irn ⟨elems, perm_type.chain⟩ freeReg st
        = split_chain_into_copies irn ⟨elems, perm_type.chain⟩ st from rfl] at h
    exact split_chain_shape _ _ _ _ h
  | cycle =>
    cases freeReg with
    | none =>
      rw [show reduce_perm_size irn ⟨elems, perm_type.cycle⟩ none st
          = split_cycle_into_swaps irn ⟨elems, perm_type.cycle⟩ st from rfl] at h
      exact split_cycle_swaps_shape _ _ _ _ h
    | some r =>
      rw [show reduce_perm_size irn ⟨elems, perm_type.cycle⟩ (some r) st
          = (if elems.length ≤ 2 then
              split_cycle_into_swaps irn ⟨elems, perm_type.cycle⟩ st
             else
              split_cycle_into_copies irn ⟨elems, perm_type.cycle⟩ r st)
          from rfl] at h
      by_cases hl : elems.length ≤ 2
      · rw [if_pos hl] at h
        exact split_cycle_swaps_shape _ _ _ _ h
      · rw [if_neg hl] at h
        exact split_cycle_copies_shape _ _ _ _ _ h

theorem lower_loop_shape (irn arity : Nat) (freeReg : Option Nat)
    (gfuel : Nat) : ∀ (fuel : Nat) (st out : LowSt),
    lower_loop irn arity freeReg gfuel fuel st = some out →
    (out.keep_perm = true → st.keep_perm = true ∨ arity = 2) ∧
    out.permRemoved = st.permRemoved ∧
    ∀ id2 l, ENode.xchg id2 l ∈ out.emitted →
      ENode.xchg id2 l ∈ st.emitted ∨ l.length = 2 := by
  intro fuel
  induction fuel with
  | zero =>
    intro st out h
    rw [lower_loop] at h
    by_cases hz : get_n_unchecked_pairs st.pairs = 0
    · rw [if_pos hz] at h
      obtain rfl := Option.some.inj h
      exact ⟨fun hk => Or.inl hk, rfl, fun id2 l hm => Or.inl hm⟩
    · rw [if_neg hz] at h
      cases h
  | succ fuel ih =>
    intro st out h
    rw [lower_loop] at h
    by_cases hz : get_n_unchecked_pairs st.pairs = 0
    · rw [if_pos hz] at h
      obtain rfl := Option.some.inj h
      exact ⟨fun hk => Or.inl hk, rfl, fun id2 l hm => Or.inl hm⟩
    · rw [if_neg hz] at h
      cases hfi : st.pairs.findIdx? (fun p => !p.checked) with
      | none =>
        simp only [hfi] at h
        obtain rfl := Option.some.inj h
        exact ⟨fun hk => Or.inl hk, rfl, fun id2 l hm => Or.inl hm⟩
      | some i =>
        simp only [hfi] at h
        cases hmp : get_perm_move_info st.pairs i gfuel with
        | none => simp only [hmp] at h; cases h
        | some mp =>
          simp only [hmp] at h
          by_cases hky : (mp.1.type == perm_type.cycle && arity == 2) = true
          · rw [if_pos hky] at h
            have harr : arity = 2 := by
              rw [Bool.and_eq_true] at hky
              exact beq_iff_eq.mp hky.2
            obtain ⟨-, hrm, hx⟩ := ih _ _ h
            exact ⟨fun _ => Or.inr harr, hrm, fun id2 l hm =>
              (hx id2 l hm).imp (fun h2 => h2) (fun h2 => h2)⟩
          · rw [if_neg hky] at h
            cases hrd : reduce_perm_size irn mp.1 freeReg
                { st with pairs := mp.2 } with
            | none => simp only [hrd] at h; cases h
            | some st2 =>
              simp only [hrd] at h
              obtain ⟨hk2, hrm2, hx2⟩ := ih _ _ h
              obtain ⟨hk3, hrm3, hx3⟩ := reduce_perm_size_shape _ _ _ _ _ hrd
              refine ⟨fun hk => ?_, by rw [hrm2, hrm3], fun id2 l hm => ?_⟩
              · rcases hk2 hk with h2 | h2
                · rw [hk3] at h2
                  exact Or.inl h2
                · exact Or.inr h2
              · rcases hx2 id2 l hm with h2 | h2
                · exact hx3 id2 l h2
                · exact Or.inr h2

theorem lower_perm_node_shape (permId : Nat) (ins : List PermIn)
    (outs : List ProjOut) (freeReg : Option Nat) (gfuel : Nat)
    (sched : List Nat) (nextId : Nat) (st : LowSt)
    (h : lower_perm_node permId ins outs freeReg gfuel sched nextId = some st) :
    (st.permRemoved = false → ins.length = 2) ∧
    ∀ id2 l, ENode.xchg id2 l ∈ st.emitted → l.length = 2 := by
  dsimp only [lower_perm_node] at h
  cases hp : sched_prev_of sched permId with
  | none => rw [hp] at h; cases h
  | some p =>
    rw [hp] at h
    by_cases harr : ins.length ≠ outs.length
    · rw [if_pos harr] at h
      cases h
    · rw [if_neg harr] at h
      cases hb : build_register_pair_list ins outs with
      | none => simp only [hb] at h; cases h
      | some pe =>
        simp only [hb] at h
        cases hlp : lower_loop permId ins.length freeReg gfuel
            (pe.1.length + 1)
            { sched := sched, pairs := pe.1, emitted := [],
              exchanged := pe.2.map (fun e => (some e.1, e.2)), rewired := [],
              regAssign := [], nextId := nextId, keep_perm := false,
              permRemoved := false } with
        | none => simp only [hlp] at h; cases h
        | some st1 =>
          simp only [hlp] at h
          obtain ⟨hkp, hrm, hxc⟩ := lower_loop_shape _ _ _ _ _ _ _ hlp
          by_cases hkeep : st1.keep_perm = true
          · rw [if_pos hkeep] at h
            obtain rfl := Option.some.inj h
            refine ⟨fun _ => ?_, fun id2 l hm => ?_⟩
            · rcases hkp hkeep with h2 | h2
              · cases h2
              · exact h2
            · rcases hxc id2 l hm with h2 | h2
              · cases h2
              · exact h2
          · rw [if_neg hkeep] at h
            obtain rfl := Option.some.inj h
            refine ⟨fun hrm2 => ?_, fun id2 l hm => ?_⟩
            · cases hrm2
            · rcases hxc id2 l hm with h2 | h2
              · cases h2
              · exact h2

theorem lower_loop_unchecked_zero (irn arity : Nat) (freeReg : Option Nat)
    (gfuel fuel : Nat) (st : LowSt)
    (h : get_n_unchecked_pairs st.pairs = 0) :
    lower_loop irn arity freeReg gfuel fuel st = some st := by
  cases fuel with
  | zero => rw [lower_loop, if_pos h]
  | succ fuel => rw [lower_loop, if_pos h]

theorem build_register_pair_list_identity (ins : List PermIn) :
    ∀ (outs : List ProjOut),
      (∀ o ∈ outs, ∃ i, ins.get? o.pn = some i ∧ i.reg = o.reg) →
      ∃ ex, build_register_pair_list ins outs = some ([], ex) ∧
        ex.length = outs.length ∧
        ∀ o ∈ outs, ∃ i, ins.get? o.pn = some i ∧ (o.id, i.id) ∈ ex := by
  intro outs
  induction outs with
  | nil => intro _; exact ⟨[], rfl, rfl, fun o ho => (nomatch ho)⟩
  | cons o rest ih =>
    intro h
    obtain ⟨io, hio, hreg⟩ := h o (List.mem_cons_self ..)
    obtain ⟨ex, hbuild, hlen, hmem⟩ :=
      ih (fun o2 ho2 => h o2 (List.mem_cons_of_mem _ ho2))
    refine ⟨(o.id, io.id) :: ex, ?_, by simp [hlen], ?_⟩
    · rw [build_register_pair_list]
      simp only [hio, hbuild]
      rw [if_pos (by simpa using hreg)]
    · intro o2 ho2
      rcases List.mem_cons.mp ho2 with rfl | h2
      · exact ⟨io, hio, List.mem_cons_self ..⟩
      · obtain ⟨i2, hi2, hm2⟩ := hmem o2 h2
        exact ⟨i2, hi2, List.mem_cons_of_mem _ hm2⟩

/-- C6: for a Perm whose permutation is the identity on every slot, the
lowering exchanges every Proj with its selected input, creates zero new
nodes, and removes the Perm from the schedule (and kills it): the pair
list is empty and the result state differs from the input only by the
identity exchanges and the removal of the Perm. -/
theorem C6_identity_perm (permId : Nat) (ins : List PermIn)
    (outs : List ProjOut) (freeReg : Option Nat) (gfuel : Nat)
    (sched : List Nat) (nextId p : Nat)
    (hprev : sched_prev_of sched permId = some p)
    (harity : ins.length = outs.length)
    (hid : ∀ o ∈ outs, ∃ i, ins.get? o.pn = some i ∧ i.reg = o.reg) :
    ∃ st, lower_perm_node permId ins outs freeReg gfuel sched nextId
        = some st ∧
      st.emitted = [] ∧ st.pairs = [] ∧ st.permRemoved = true ∧
      st.sched = sched.erase permId ∧ st.nextId = nextId ∧
      st.exchanged.length = outs.length ∧
      ∀ o ∈ outs, ∃ i, ins.get? o.pn = some i ∧
        (some o.id, i.id) ∈ st.exchanged := by
  obtain ⟨ex, hbuild, hlen, hmem⟩ := build_register_pair_list_identity ins outs hid
  have hres : lower_perm_node permId ins outs freeReg gfuel sched nextId
      = some
        { sched := sched.erase permId
          pairs := []
          emitted := []
          exchanged := ex.map (fun e => (some e.1, e.2))
          rewired := []
          regAssign := []
          nextId := nextId
          keep_perm := false
          permRemoved := true } := by
    dsimp only [lower_perm_node]
    simp only [hprev, hbuild]
    rw [if_neg (by simp [harity])]
    rw [lower_loop_unchecked_zero permId ins.length freeReg gfuel _
      { sched := sched
        pairs := []
        emitted := []
        exchanged := ex.map (fun e => (some e.1, e.2))
        rewired := []
        regAssign := []
        nextId := nextId
        keep_perm := false
        permRemoved := false } rfl]
    rfl
  refine ⟨_, hres, rfl, rfl, rfl, rfl, rfl, by simpa using hlen, ?_⟩
  intro o ho
  obtain ⟨i, hi, hm⟩ := hmem o ho
  refine ⟨i, hi, ?_⟩
  show (some o.id, i.id) ∈ ex.map (fun e => (some e.1, e.2))
  exact List.mem_map_of_mem _ hm

/-- C6 witness: the identity Perm (id 5) with inputs in r1, r2 and Projs
assigned to the same registers. -/
theorem C6_witness :
    ∃ st, lower_perm_node 5 [⟨10, 1⟩, ⟨11, 2⟩] [⟨20, 0, 1⟩, ⟨21, 1, 2⟩]
        none 9 [4, 5] 100 = some st ∧
      st.emitted = [] ∧ st.pairs = [] ∧ st.permRemoved = true ∧
      st.sched = ([4, 5] : List Nat).erase 5 ∧ st.nextId = 100 ∧
      st.exchanged.length = 2 ∧
      ∀ o ∈ [(⟨20, 0, 1⟩ : ProjOut), ⟨21, 1, 2⟩],
        ∃ i, ([(⟨10, 1⟩ : PermIn), ⟨11, 2⟩]).get? o.pn = some i ∧
          (some o.id, i.id) ∈ st.exchanged :=
  C6_identity_perm 5 [⟨10, 1⟩, ⟨11, 2⟩] [⟨20, 0, 1⟩, ⟨21, 1, 2⟩] none 9
    [4, 5] 100 4 (by rfl) (by rfl) (by decide)

/-- C7: after the lower_nodes_after_ra walk, every Perm node present has
arity exactly 2: every Perm kept by lower_perm_node has arity 2 (the
two-element-cycle case) and every exchange Perm created by
split_cycle_into_swaps is binary; hence no Perm of arity greater than 2
remains. -/
theorem C7_no_wide_perm_after_lowering (gfuel : Nat) (ds : List PermDesc)
    (l : List Nat) (h : lower_nodes_after_ra gfuel ds = some l) :
    ∀ a ∈ l, a = 2 := by
  induction ds generalizing l with
  | nil =>
    rw [lower_nodes_after_ra] at h
    obtain rfl := Option.some.inj h
    intro a ha
    cases ha
  | cons d rest ih =>
    rw [lower_nodes_after_ra] at h
    cases hrec : lower_nodes_after_ra gfuel rest with
    | none => simp only [hrec] at h; cases h
    | some acc =>
      simp only [hrec] at h
      by_cases hst : d.stayed = true
      · rw [if_pos hst] at h
        cases hlp : lower_perm_node d.permId d.ins d.outs d.freeReg gfuel
            d.sched d.nextId with
        | none => simp only [hlp] at h; cases h
        | some st =>
          simp only [hlp] at h
          obtain rfl := Option.some.inj h
          intro a ha
          rcases List.mem_append.mp ha with ha1 | ha2
          · obtain ⟨hrm, hxc⟩ := lower_perm_node_shape _ _ _ _ _ _ _ _ hlp
            unfold perm_arities_of at ha1
            rcases List.mem_append.mp ha1 with hb | hb
            · by_cases hr : st.permRemoved = true
              · rw [if_pos hr] at hb
                cases hb
              · rw [if_neg hr] at hb
                rcases List.mem_cons.mp hb with rfl | hb2
                · exact hrm (by
                    revert hr
                    cases st.permRemoved <;> simp)
                · cases hb2
            · obtain ⟨e, he, hfe⟩ := List.mem_filterMap.mp hb
              cases e with
              | copy i s dst => cases hfe
              | xchg i li =>
                obtain rfl := Option.some.inj hfe
                exact hxc i li he
          · exact ih acc hrec a ha2
      · rw [if_neg hst] at h
        obtain rfl := Option.some.inj h
        exact ih acc hrec

/-- C7 witness: a single pure-swap Perm (arity 2) that stayed; the walk
reports exactly one surviving Perm, of arity 2. -/
theorem C7_witness :
    lower_nodes_after_ra 9
        [{ permId := 5, ins := [⟨10, 1⟩, ⟨11, 2⟩],
           outs := [⟨20, 0, 2⟩, ⟨21, 1, 1⟩], freeReg := none, stayed := true,
           sched := [4, 5], nextId := 100 }] = some [2] ∧
    (2 : Nat) = 2 :=
  ⟨by rfl,
   C7_no_wide_perm_after_lowering 9
     [{ permId := 5, ins := [⟨10, 1⟩, ⟨11, 2⟩],
        outs := [⟨20, 0, 2⟩, ⟨21, 1, 1⟩], freeReg := none, stayed := true,
        sched := [4, 5], nextId := 100 }] [2] (by rfl) 2 (by simp)⟩

theorem copy_loop_spec (elems : List Nat) : ∀ (k sp : Nat) (st : LowSt)
    (A B : List Nat),
    st.sched = A ++ sp :: B → sp ∉ A →
    (∀ id2 ∈ st.sched, id2 < st.nextId) →
    ((copy_loop elems k sp st).1.sched
        = A ++ sp :: (List.range' st.nextId k ++ B)) ∧
    (copy_loop elems k sp st).1.pairs = st.pairs ∧
    (copy_loop elems k sp st).1.nextId = st.nextId + k ∧
    ((copy_loop elems k sp st).1.emitted = st.emitted ++
      (List.range k).map (fun j => ENode.copy (st.nextId + j)
        (get_node_for_in_register st.pairs (elems.getD (k - 1 - j) 0))
        (elems.getD (k - j) 0))) ∧
    ((copy_loop elems k sp st).1.exchanged = st.exchanged ++
      (List.range k).map (fun j =>
        (get_node_for_out_register st.pairs (elems.getD (k - j) 0),
         st.nextId + j))) ∧
    (copy_loop elems k sp st).2
      = (if k = 0 then sp else st.nextId + k - 1) := by
  intro k
  induction k with
  | zero =>
    intro sp st A B hsched hspA hbound
    refine ⟨by simpa using hsched, rfl, rfl, by simp [copy_loop],
      by simp [copy_loop], rfl⟩
  | succ k ih =>
    intro sp st A B hsched hspA hbound
    dsimp only [copy_loop]
    have hsched1 : sched_add_after st.sched sp st.nextId
        = (A ++ [sp]) ++ st.nextId :: B := by
      rw [hsched, sched_add_after_append A sp st.nextId B hspA]
      simp
    have hspA1 : st.nextId ∉ A ++ [sp] := by
      intro hmem
      have hin : st.nextId ∈ st.sched := by
        rw [hsched]
        rcases List.mem_append.mp hmem with h1 | h1
        · exact List.mem_append_left _ h1
        · rcases List.mem_cons.mp h1 with rfl | h2
          · exact List.mem_append_right _ (List.mem_cons_self ..)
          · cases h2
      exact absurd (hbound _ hin) (Nat.lt_irrefl _)
    have hbound1 : ∀ id2 ∈ sched_add_after st.sched sp st.nextId,
        id2 < st.nextId + 1 := by
      intro id2 hm
      rcases (mem_sched_add_after _ _ _ _).mp hm with h1 | rfl
      · exact Nat.lt_succ_of_lt (hbound _ h1)
      · exact Nat.lt_succ_self _
    obtain ⟨s1, p1, n1, e1, x1, r1⟩ := ih st.nextId
      { st with
        emitted := st.emitted ++ [ENode.copy st.nextId
          (get_node_for_in_register st.pairs (elems.getD k 0))
          (elems.getD (k + 1) 0)]
        exchanged := st.exchanged ++
          [(get_node_for_out_register st.pairs (elems.getD (k + 1) 0),
            st.nextId)]
        sched := sched_add_after st.sched sp st.nextId
        nextId := st.nextId + 1 }
      (A ++ [sp]) B hsched1 hspA1 hbound1
    refine ⟨?_, p1, ?_, ?_, ?_, ?_⟩
    · rw [s1]
      show (A ++ [sp]) ++ st.nextId :: (List.range' (st.nextId + 1) k ++ B)
          = A ++ sp :: (List.range' st.nextId (k + 1) ++ B)
      rw [show List.range' st.nextId (k + 1)
          = st.nextId :: List.range' (st.nextId + 1) k from rfl]
      simp
    · rw [n1]
      show st.nextId + 1 + k = st.nextId + (k + 1)
      omega
    · rw [e1]
      show (st.emitted ++ [ENode.copy st.nextId
          (get_node_for_in_register st.pairs (elems.getD k 0))
          (elems.getD (k + 1) 0)]) ++
        (List.range k).map (fun j => ENode.copy (st.nextId + 1 + j)
          (get_node_for_in_register st.pairs (elems.getD (k - 1 - j) 0))
          (elems.getD (k - j) 0))
        = st.emitted ++
        (List.range (k + 1)).map (fun j => ENode.copy (st.nextId + j)
          (get_node_for_in_register st.pairs (elems.getD (k + 1 - 1 - j) 0))
          (elems.getD (k + 1 - j) 0))
      rw [List.range_succ_eq_map, List.map_cons, List.map_map,
        List.append_assoc, List.singleton_append]
      congr 1
      refine List.cons_eq_cons.mpr ⟨rfl, ?_⟩
      apply List.map_congr_left
      intro j hj
      show ENode.copy (st.nextId + 1 + j)
          (get_node_for_in_register st.pairs (elems.getD (k - 1 - j) 0))
          (elems.getD (k - j) 0)
        = ENode.copy (st.nextId + (j + 1))
          (get_node_for_in_register st.pairs
            (elems.getD (k + 1 - 1 - (j + 1)) 0))
          (elems.getD (k + 1 - (j + 1)) 0)
      rw [show st.nextId + 1 + j = st.nextId + (j + 1) from by omega,
        show k + 1 - 1 - (j + 1) = k - 1 - j from by omega,
        show k + 1 - (j + 1) = k - j from by omega]
    · rw [x1]
      show (st.exchanged ++
          [(get_node_for_out_register st.pairs (elems.getD (k + 1) 0),
            st.nextId)]) ++
        (List.range k).map (fun j =>
          (get_node_for_out_register st.pairs (elems.getD (k - j) 0),
           st.nextId + 1 + j))
        = st.exchanged ++
        (List.range (k + 1)).map (fun j =>
          (get_node_for_out_register st.pairs (elems.getD (k + 1 - j) 0),
           st.nextId + j))
      rw [List.range_succ_eq_map, List.map_cons, List.map_map,
        List.append_assoc, List.singleton_append]
      congr 1
      refine List.cons_eq_cons.mpr ⟨rfl, ?_⟩
      apply List.map_congr_left
      intro j hj
      show (get_node_for_out_register st.pairs (elems.getD (k - j) 0),
          st.nextId + 1 + j)
        = (get_node_for_out_register st.pairs
            (elems.getD (k + 1 - (j + 1)) 0),
           st.nextId + (j + 1))
      rw [show st.nextId + 1 + j = st.nextId + (j + 1) from by omega,
        show k + 1 - (j + 1) = k - j from by omega]
    · rw [r1]
      by_cases hk : k = 0
      · rw [if_pos hk, if_neg (Nat.succ_ne_zero k)]
        omega
      · rw [if_neg hk, if_neg (Nat.succ_ne_zero k)]
        show st.nextId + 1 + k - 1 = st.nextId + (k + 1) - 1
        omega

/-- Frame property of the copy loop for the remaining mutable fields: the
rewired and regAssign lists are never touched by copy_loop. -/
theorem copy_loop_frame2 (elems : List Nat) : ∀ (k sp : Nat) (st : LowSt),
    (copy_loop elems k sp st).1.rewired = st.rewired ∧
    (copy_loop elems k sp st).1.regAssign = st.regAssign := by
  intro k
  induction k with
  | zero => intro sp st; exact ⟨rfl, rfl⟩
  | succ k ih =>
    intro sp st
    dsimp only [copy_loop]
    exact ⟨(ih _ _).1, (ih _ _).2⟩

/-- C4: for a Cycle move of length n ≥ 3 on a Perm with a recorded scratch
register s, reduce_perm_size realises the cycle as exactly n+1 copies,
inserted after the Perm's schedule predecessor p in exactly this forward
order: first the save copy of the holder of elems[n-1] assigned to s, then
for j = 0..n-2 a copy of the holder of elems[n-2-j] assigned to
elems[n-1-j] whose out Proj is exchanged for it, and finally the restore
copy of the saved value assigned to elems[0] (its Proj also exchanged);
the pair array, rewired, regAssign and flags are untouched, and the fresh
ids are the contiguous block nextId..nextId+n inserted in schedule order
between p and the Perm.  The Perm itself is deleted by lower_perm_node:
for any Perm whose arity is not 2 (as here, n ≥ 3) a successful
lower_perm_node reports the Perm removed. -/
theorem C4_cycle_with_scratch (permId s : Nat) (elems : List Nat)
    (st : LowSt) (pre post : List Nat) (p : Nat) (ins : List PermIn)
    (outs : List ProjOut) (gfuel nid : Nat) (sched2 : List Nat) (out : LowSt)
    (hsched : st.sched = pre ++ p :: permId :: post)
    (hpre : permId ∉ pre) (hppre : p ∉ pre) (hpp : permId ≠ p)
    (hfresh : ∀ id2 ∈ st.sched, id2 < st.nextId)
    (hlen : 3 ≤ elems.length)
    (harity : ins.length ≠ 2)
    (hlow : lower_perm_node permId ins outs (some s) gfuel sched2 nid
      = some out) :
    reduce_perm_size permId { elems := elems, type := perm_type.cycle }
        (some s) st
      = some { st with
          sched := pre ++ p ::
            (List.range' st.nextId (elems.length + 1) ++ permId :: post)
          emitted := st.emitted ++
            (ENode.copy st.nextId
              (get_node_for_in_register st.pairs
                (elems.getD (elems.length - 1) 0)) s ::
             ((List.range (elems.length - 1)).map (fun j =>
                ENode.copy (st.nextId + 1 + j)
                  (get_node_for_in_register st.pairs
                    (elems.getD (elems.length - 2 - j) 0))
                  (elems.getD (elems.length - 1 - j) 0)) ++
              [ENode.copy (st.nextId + elems.length) (some st.nextId)
                (elems.getD 0 0)]))
          exchanged := st.exchanged ++
            ((List.range (elems.length - 1)).map (fun j =>
               (get_node_for_out_register st.pairs
                 (elems.getD (elems.length - 1 - j) 0), st.nextId + 1 + j)) ++
             [(get_node_for_out_register st.pairs (elems.getD 0 0),
               st.nextId + elems.length)])
          nextId := st.nextId + (elems.length + 1) } ∧
    out.permRemoved = true := by
  obtain ⟨m, hm⟩ : ∃ m, elems.length = m + 3 := ⟨elems.length - 3, by omega⟩
  constructor
  · have hsp : sched_prev_of st.sched permId = some p := by
      rw [hsched]
      exact sched_prev_of_append pre p permId post hpre hpp
    have hsave : sched_add_after st.sched p st.nextId
        = (pre ++ [p]) ++ st.nextId :: (permId :: post) := by
      rw [hsched, sched_add_after_append pre p st.nextId (permId :: post) hppre]
      simp
    have hnA : st.nextId ∉ pre ++ [p] := by
      intro hmem
      rcases List.mem_append.mp hmem with h1 | h1
      · have hmem2 : st.nextId ∈ st.sched := by
          rw [hsched]
          exact List.mem_append_left _ h1
        exact absurd (hfresh _ hmem2) (Nat.lt_irrefl _)
      · rcases List.mem_cons.mp h1 with h2 | h2
        · subst h2
          have hmem2 : st.nextId ∈ st.sched := by
            rw [hsched]
            exact List.mem_append_right _ (List.mem_cons_self ..)
          exact absurd (hfresh _ hmem2) (Nat.lt_irrefl _)
        · simp at h2
    have hb1 : ∀ id2 ∈ sched_add_after st.sched p st.nextId,
        id2 < st.nextId + 1 := by
      intro id2 hm2
      rcases (mem_sched_add_after st.sched p st.nextId id2).mp hm2 with h1 | rfl
      · exact Nat.lt_succ_of_lt (hfresh _ h1)
      · exact Nat.lt_succ_self _
    have hpos : st.nextId + (m + 2) ∉
        (pre ++ [p]) ++ st.nextId :: List.range' (st.nextId + 1) (m + 1) := by
      intro hmem
      rcases List.mem_append.mp hmem with h1 | h1
      · rcases List.mem_append.mp h1 with h2 | h2
        · have hmem2 : st.nextId + (m + 2) ∈ st.sched := by
            rw [hsched]
            exact List.mem_append_left _ h2
          have := hfresh _ hmem2
          omega
        · rcases List.mem_cons.mp h2 with h3 | h3
          · have hmem2 : p ∈ st.sched := by
              rw [hsched]
              exact List.mem_append_right _ (List.mem_cons_self ..)
            have := hfresh p hmem2
            omega
          · simp at h3
      · rcases List.mem_cons.mp h1 with h3 | h3
        · omega
        · have := List.mem_range'_1.mp h3
          omega
    obtain ⟨s1, p1, n1, e1, x1, r1⟩ := copy_loop_spec elems
      (elems.length - 1) st.nextId
      { st with
        emitted := st.emitted ++ [ENode.copy st.nextId
          (get_node_for_in_register st.pairs
            (elems.getD (elems.length - 1) 0)) s]
        sched := sched_add_after st.sched p st.nextId
        nextId := st.nextId + 1 }
      (pre ++ [p]) (permId :: post) hsave hnA hb1
    obtain ⟨k1, m1, q1⟩ := copy_loop_frame elems (elems.length - 1) st.nextId
      { st with
        emitted := st.emitted ++ [ENode.copy st.nextId
          (get_node_for_in_register st.pairs
            (elems.getD (elems.length - 1) 0)) s]
        sched := sched_add_after st.sched p st.nextId
        nextId := st.nextId + 1 }
    obtain ⟨w1, g1⟩ := copy_loop_frame2 elems (elems.length - 1) st.nextId
      { st with
        emitted := st.emitted ++ [ENode.copy st.nextId
          (get_node_for_in_register st.pairs
            (elems.getD (elems.length - 1) 0)) s]
        sched := sched_add_after st.sched p st.nextId
        nextId := st.nextId + 1 }
    dsimp only [reduce_perm_size]
    rw [if_neg (show ¬ elems.length ≤ 2 by omega)]
    dsimp only [split_cycle_into_copies]
    simp only [hsp]
    congr 1
    congr 1
    · rw [s1, n1, r1, if_neg (show ¬ (elems.length - 1 = 0) by omega)]
      show sched_add_after ((pre ++ [p]) ++ st.nextId ::
            (List.range' (st.nextId + 1) (elems.length - 1) ++ (permId :: post)))
          (st.nextId + 1 + (elems.length - 1) - 1)
          (st.nextId + 1 + (elems.length - 1))
        = pre ++ p ::
            (List.range' st.nextId (elems.length + 1) ++ permId :: post)
      rw [hm]
      rw [show st.nextId + 1 + (m + 3 - 1) - 1 = st.nextId + (m + 2)
        from by omega]
      rw [show st.nextId + 1 + (m + 3 - 1) = st.nextId + (m + 3) from by omega]
      rw [show m + 3 - 1 = m + 2 from by omega]
      rw [show List.range' (st.nextId + 1) (m + 2)
          = List.range' (st.nextId + 1) (m + 1) ++ [st.nextId + 1 + (m + 1)]
        from List.range'_1_concat (st.nextId + 1) (m + 1)]
      rw [show st.nextId + 1 + (m + 1) = st.nextId + (m + 2) from by omega]
      have hform : (pre ++ [p]) ++ st.nextId ::
          ((List.range' (st.nextId + 1) (m + 1) ++ [st.nextId + (m + 2)]) ++
            (permId :: post))
        = ((pre ++ [p]) ++ st.nextId :: List.range' (st.nextId + 1) (m + 1))
          ++ (st.nextId + (m + 2)) :: (permId :: post) := by
        simp
      rw [hform]
      rw [sched_add_after_append
        ((pre ++ [p]) ++ st.nextId :: List.range' (st.nextId + 1) (m + 1))
        (st.nextId + (m + 2)) (st.nextId + (m + 3)) (permId :: post) hpos]
      rw [show List.range' st.nextId (m + 3 + 1)
          = st.nextId :: List.range' (st.nextId + 1) (m + 3) from rfl]
      rw [show List.range' (st.nextId + 1) (m + 3)
          = List.range' (st.nextId + 1) (m + 2) ++ [st.nextId + 1 + (m + 2)]
        from List.range'_1_concat (st.nextId + 1) (m + 2)]
      rw [show List.range' (st.nextId + 1) (m + 2)
          = List.range' (st.nextId + 1) (m + 1) ++ [st.nextId + 1 + (m + 1)]
        from List.range'_1_concat (st.nextId + 1) (m + 1)]
      rw [show st.nextId + 1 + (m + 2) = st.nextId + (m + 3) from by omega]
      rw [show st.nextId + 1 + (m + 1) = st.nextId + (m + 2) from by omega]
      simp
    · rw [e1, n1]
      show ((st.emitted ++ [ENode.copy st.nextId
            (get_node_for_in_register st.pairs
              (elems.getD (elems.length - 1) 0)) s]) ++
          (List.range (elems.length - 1)).map (fun j =>
            ENode.copy (st.nextId + 1 + j)
              (get_node_for_in_register st.pairs
                (elems.getD (elems.length - 1 - 1 - j) 0))
              (elems.getD (elems.length - 1 - j) 0))) ++
          [ENode.copy (st.nextId + 1 + (elems.length - 1)) (some st.nextId)
            (elems.getD 0 0)]
        = st.emitted ++
          (ENode.copy st.nextId
            (get_node_for_in_register st.pairs
              (elems.getD (elems.length - 1) 0)) s ::
           ((List.range (elems.length - 1)).map (fun j =>
              ENode.copy (st.nextId + 1 + j)
                (get_node_for_in_register st.pairs
                  (elems.getD (elems.length - 2 - j) 0))
                (elems.getD (elems.length - 1 - j) 0)) ++
            [ENode.copy (st.nextId + elems.length) (some st.nextId)
              (elems.getD 0 0)]))
      rw [show st.nextId + 1 + (elems.length - 1) = st.nextId + elems.length
        from by omega]
      rw [show (List.range (elems.length - 1)).map (fun j =>
            ENode.copy (st.nextId + 1 + j)
              (get_node_for_in_register st.pairs
                (elems.getD (elems.length - 1 - 1 - j) 0))
              (elems.getD (elems.length - 1 - j) 0))
          = (List.range (elems.length - 1)).map (fun j =>
            ENode.copy (st.nextId + 1 + j)
              (get_node_for_in_register st.pairs
                (elems.getD (elems.length - 2 - j) 0))
              (elems.getD (elems.length - 1 - j) 0))
        from List.map_congr_left (fun j hj => by
          rw [show elems.length - 1 - 1 - j = elems.length - 2 - j
            from by omega])]
      simp
    · rw [x1, n1, p1]
      show ((st.exchanged ++ (List.range (elems.length - 1)).map (fun j =>
            (get_node_for_out_register st.pairs
              (elems.getD (elems.length - 1 - j) 0), st.nextId + 1 + j))) ++
          [(get_node_for_out_register st.pairs (elems.getD 0 0),
            st.nextId + 1 + (elems.length - 1))])
        = st.exchanged ++
          ((List.range (elems.length - 1)).map (fun j =>
             (get_node_for_out_register st.pairs
               (elems.getD (elems.length - 1 - j) 0), st.nextId + 1 + j)) ++
           [(get_node_for_out_register st.pairs (elems.getD 0 0),
             st.nextId + elems.length)])
      rw [show st.nextId + 1 + (elems.length - 1) = st.nextId + elems.length
        from by omega]
      simp
    · rw [n1]
      show st.nextId + 1 + (elems.length - 1) + 1
        = st.nextId + (elems.length + 1)
      omega
  · cases hrm : out.permRemoved with
    | false =>
      exact absurd ((lower_perm_node_shape permId ins outs (some s) gfuel
        sched2 nid out hlow).1 hrm) harity
    | true => rfl

/-- Witness for C4: a three cycle over registers 1 -> 2 -> 3 -> 1 (pair
array P with holders 10, 11, 12 and out Projs 20, 21, 22), scratch
register 4, Perm id 5 scheduled right after node 4, fresh ids from 100:
reduce_perm_size emits the save copy to register 4, the two cycle copies
and the restore copy in forward schedule order between node 4 and the
Perm, and a unary Perm (arity 1, not 2) is removed by lower_perm_node. -/
theorem C4_witness :
    reduce_perm_size 5 { elems := [2, 3, 1], type := perm_type.cycle }
        (some 4)
        { sched := [4, 5]
          pairs := [⟨1, 10, 2, 20, true⟩, ⟨2, 11, 3, 21, true⟩,
                    ⟨3, 12, 1, 22, true⟩]
          emitted := []
          exchanged := []
          rewired := []
          regAssign := []
          nextId := 100
          keep_perm := false
          permRemoved := false }
      = some
        { sched := [4, 100, 101, 102, 103, 5]
          pairs := [⟨1, 10, 2, 20, true⟩, ⟨2, 11, 3, 21, true⟩,
                    ⟨3, 12, 1, 22, true⟩]
          emitted := [ENode.copy 100 (some 10) 4, ENode.copy 101 (some 12) 1,
                      ENode.copy 102 (some 11) 3, ENode.copy 103 (some 100) 2]
          exchanged := [(some 22, 101), (some 21, 102), (some 20, 103)]
          rewired := []
          regAssign := []
          nextId := 104
          keep_perm := false
          permRemoved := false } ∧
    ({ sched := [4]
       pairs := []
       emitted := []
       exchanged := [(some 20, 10)]
       rewired := []
       regAssign := []
       nextId := 100
       keep_perm := false
       permRemoved := true } : LowSt).permRemoved = true :=
  C4_cycle_with_scratch 5 4 [2, 3, 1]
    { sched := [4, 5]
      pairs := [⟨1, 10, 2, 20, true⟩, ⟨2, 11, 3, 21, true⟩,
                ⟨3, 12, 1, 22, true⟩]
      emitted := []
      exchanged := []
      rewired := []
      regAssign := []
      nextId := 100
      keep_perm := false
      permRemoved := false }
    [] [] 4 [⟨10, 1⟩] [⟨20, 0, 1⟩] 0 100 [4, 5]
    { sched := [4]
      pairs := []
      emitted := []
      exchanged := [(some 20, 10)]
      rewired := []
      regAssign := []
      nextId := 100
      keep_perm := false
      permRemoved := true }
    rfl (by simp) (by simp) (by decide) (by decide) (by decide) (by decide)
    (by decide)

end Belower
